import Mathlib

/-!
# Verification of the gardener-node-agent OperatingSystemConfig reconciler

Shallow embedding of `Reconciler.Reconcile` and its helpers from
`pkg/nodeagent/controller/operatingsystemconfig` (the reconciler that decodes
the OperatingSystemConfig, computes a change-set, and applies systemd units and
files to the node).

Side effects (filesystem mutations, D-Bus/systemd calls, Kubernetes API
patches, the OS-update script, context cancellation) are recorded as events in
a trace.  Each effectful computation is a `Step α`: the list of events it emits
(successful operations only) together with its result, where the result is
either a value, a Go error, or a fault (nil-pointer dereference).  An
environment `Env` supplies the results of all reads and the success/failure of
every operation, so theorems quantify over every possible behaviour of the
collaborators (Kubernetes API, filesystem, D-Bus, image extractor).
-/

namespace OSCReconcile

/-- The six applier stages of the apply phase, in the literal order of the
`log.Info` statements in `Reconcile` (lines 150-179). -/
inductive Stage where
  | containerdConfig
  | inlineFiles
  | containerdRegistries
  | imageRefFiles
  | changedUnits
  | deletedUnits
deriving DecidableEq, Repr

/-- Observable effects of the reconciler.  Every side-effecting call of
`Reconcile` and its helpers is recorded as one of these events. -/
inductive Event where
  /-- one of the `log.Info` stage markers introducing an applier stage -/
  | stage (s : Stage)
  /-- `r.ReconcileContainerdConfig` (containerd configuration applier) -/
  | reconcileContainerdConfig
  /-- `r.FS.MkdirAll` -/
  | mkdir (p : String)
  /-- `r.FS.WriteFile` -/
  | write (p : String)
  /-- `filespkg.Move` of a temporary file over the final path -/
  | move (src dst : String)
  /-- `r.FS.Chmod` -/
  | chmod (p : String)
  /-- `r.Extractor.CopyFromImage` -/
  | copyImage (img srcPath dst : String)
  /-- `r.ReconcileContainerdRegistries` (returns the wait function) -/
  | reconcileContainerdRegistries
  /-- `r.FS.Remove` -/
  | remove (p : String)
  /-- `r.FS.RemoveAll` -/
  | removeAll (p : String)
  /-- `r.DBus.DaemonReload` -/
  | daemonReload
  /-- `r.DBus.Enable` -/
  | enable (u : String)
  /-- `r.DBus.Disable` -/
  | disable (u : String)
  /-- `r.DBus.Start` -/
  | startUnit (u : String)
  /-- `r.DBus.Stop` -/
  | stopUnit (u : String)
  /-- `r.DBus.Restart` -/
  | restartUnit (u : String)
  /-- invoking the `waitForRegistries` function returned earlier -/
  | waitForRegistries
  /-- patching the node with the `worker.gardener.cloud/updating-os-version`
  annotation -/
  | patchNodeUpdateOSVersionAnn (v : String)
  /-- `Exec` of the in-place OS update script -/
  | execUpdateScript (v : String)
  /-- polling the kubelet health endpoint until healthy -/
  | kubeletHealthWait
  /-- `r.Client.List` of the pods on the node -/
  | listPods
  /-- `kubernetesutils.DeleteObjectsFromListConditionally` on those pods -/
  | deletePods
  /-- patching the node with the machine-update-successful label -/
  | patchNodeUpdateSuccessfulLabel
  /-- `r.Recorder.Event(..., "OSCApplied", ...)` -/
  | recordEventOSCApplied
  /-- the final patch setting the kubernetes-version label and the
  applied-OSC checksum annotation -/
  | patchNodeChecksum (c : String)
  /-- `r.CancelContext()` -/
  | cancelContext
deriving DecidableEq, Repr

/-- Result of a single fallible operation in the environment:
success, a file-not-found error, or any other error. -/
inductive OpRes where
  | ok
  | notFound
  | err
deriving DecidableEq, Repr

/-- Result of a read returning a value (`afero` reads): content, not-found,
or another error. -/
inductive ReadRes where
  | found (s : String)
  | notFound
  | err
deriving DecidableEq, Repr

/-- Result of a fallible call returning a value. -/
inductive Res (α : Type) where
  | ok (a : α)
  | err
deriving DecidableEq, Repr

/-- Result of fetching the OSC secret: found, gone (not-found, which ends the
reconciliation successfully), or another error. -/
inductive SecretRes where
  | found
  | notFound
  | err
deriving DecidableEq, Repr

/-- How a computation ends: a Go `error`, or a runtime fault
(nil-pointer dereference). -/
inductive Fault where
  | goError
  | nilDeref
deriving DecidableEq, Repr

/-- An effectful computation: the events of the successful operations it
performed, together with its result. Sequencing concatenates the traces and
short-circuits on errors, exactly like Go's early `return err` style. -/
structure Step (α : Type) where
  events : List Event
  res : Except Fault α
deriving Repr

instance : Monad Step where
  pure a := ⟨[], Except.ok a⟩
  bind x f :=
    match x.res with
    | Except.ok a => ⟨x.events ++ (f a).events, (f a).res⟩
    | Except.error e => ⟨x.events, Except.error e⟩

/-- A computation failing with a Go error, having performed nothing. -/
def Step.fail {α : Type} : Step α := ⟨[], Except.error Fault.goError⟩

/-- A computation faulting with a nil-pointer dereference. -/
def Step.nilFault {α : Type} : Step α := ⟨[], Except.error Fault.nilDeref⟩


/- ### Data model

The structures below embed the Go types used by the reconciler:
`extensionsv1alpha1.File`/`Unit`/`DropIn`, the `changedUnit` and
`operatingSystemConfigChanges` records produced by
`computeOperatingSystemConfigChanges`, the `corev1.Node` metadata the
reconciler reads and writes, and the few OSC fields the reconciler uses. -/

/-- Inline file content: `file.Content.Inline` with its encoding and data. -/
structure InlineContent where
  encoding : String
  data : String
deriving DecidableEq, Repr

/-- Image-referenced file content: `file.Content.ImageRef`. -/
structure ImageRefContent where
  image : String
  filePathInImage : String
deriving DecidableEq, Repr

/-- `extensionsv1alpha1.File`: path, optional permissions, and content which
is inline, image-referenced, or neither. -/
structure FileSpec where
  path : String
  permissions : Option Nat
  inline : Option InlineContent
  imageRef : Option ImageRefContent
deriving DecidableEq, Repr

/-- `extensionsv1alpha1.DropIn`. -/
structure DropIn where
  name : String
  content : String
deriving DecidableEq, Repr

/-- `extensionsv1alpha1.Unit` (the fields the reconciler uses). -/
structure UnitSpec where
  name : String
  enable : Option Bool
  command : Option String
  content : Option String
  dropIns : List DropIn
  filePaths : List String
deriving DecidableEq, Repr

/-- The `changedUnit` record of the change-set: the unit spec together with
the per-unit drop-in diff (`unit.dropIns.changed` / `unit.dropIns.deleted`). -/
structure ChangedUnit where
  name : String
  enable : Option Bool
  command : Option String
  content : Option String
  dropIns : List DropIn
  dropInsChanged : List DropIn
  dropInsDeleted : List DropIn
deriving DecidableEq, Repr

/-- `oscChanges.osVersion`. -/
structure OSVersionChange where
  changed : Bool
  version : String
deriving DecidableEq, Repr

/-- `oscChanges.kubeletUpdate`. -/
structure KubeletUpdate where
  minorVersionUpdate : Bool
  configUpdate : Bool
deriving DecidableEq, Repr

/-- `oscChanges.files`. -/
structure FilesDiff where
  changed : List FileSpec
  deleted : List FileSpec
deriving DecidableEq, Repr

/-- `oscChanges.units`. -/
structure UnitsDiff where
  changed : List ChangedUnit
  deleted : List UnitSpec
deriving DecidableEq, Repr

/-- `oscChanges.containerd`. -/
structure ContainerdDiff where
  configFileChange : Bool
deriving DecidableEq, Repr

/-- The change-set `operatingSystemConfigChanges` computed by
`computeOperatingSystemConfigChanges` (its fields as consumed by
`Reconcile`). -/
structure Changes where
  osVersion : OSVersionChange
  kubeletUpdate : KubeletUpdate
  caRotation : Bool
  saKeyRotation : Bool
  files : FilesDiff
  units : UnitsDiff
  containerd : ContainerdDiff
deriving DecidableEq, Repr

/-- `isInPlaceUpdate` (lines 684-690). -/
def isInPlaceUpdate (ch : Changes) : Bool :=
  ch.osVersion.changed || ch.kubeletUpdate.minorVersionUpdate ||
    ch.kubeletUpdate.configUpdate || ch.caRotation || ch.saKeyRotation

/-- The node metadata the reconciler reads and writes. -/
structure Node where
  name : String
  annotations : List (String × String)
  labels : List (String × String)
deriving DecidableEq, Repr

/-- Lookup in a Go `map[string]string` represented as an association list. -/
def lookupKV (l : List (String × String)) (k : String) : Option String :=
  (l.find? (fun p => p.1 = k)).map (fun p => p.2)

/-- `metav1.SetMetaDataAnnotation`-style insertion into an association list. -/
def setKV (l : List (String × String)) (k v : String) : List (String × String) :=
  (k, v) :: l.filter (fun p => ¬(p.1 = k))

/-- The OSC fields `Reconcile` consumes besides the change-set:
`Status.InPlaceUpdateConfig.UpdateScriptPath` and `Spec.OSVersion`. -/
structure OSC where
  updateScriptPath : Option String
  osVersion : Option String
deriving DecidableEq, Repr

/- ### Constants (paths and unit names) -/

/-- `nodeagentv1alpha1.UnitName`, the node-agent's own systemd unit. -/
def gnaUnitName : String := "gardener-node-agent.service"

/-- `v1beta1constants.OperatingSystemConfigUnitNameContainerDService`. -/
def containerdUnitName : String := "containerd.service"

/-- `kubeletUnitName` (line 58). -/
def kubeletUnitName : String := "kubelet.service"

/-- `lastAppliedOperatingSystemConfigFilePath` (line 56):
`nodeagentv1alpha1.BaseDir + "/last-applied-osc.yaml"`. -/
def lastAppliedOSCPath : String := "/var/lib/gardener-node-agent/last-applied-osc.yaml"

/-- `nodeagentv1alpha1.AnnotationKeyChecksumAppliedOperatingSystemConfig`. -/
def annotationKeyChecksumAppliedOSC : String := "checksum/cloud-config-data"

/-- `annotationUpdateOSVersion` (line 57). -/
def annotationUpdateOSVersion : String := "worker.gardener.cloud/updating-os-version"

/-- `machinev1alpha1.LabelKeyMachineIsReadyForUpdate` (the MCM ready-to-update
marker checked at line 120; the exact label string lives in the
machine-controller-manager dependency). -/
def labelKeyMachineIsReadyForUpdate : String := "node.machine.sapcloud.io/candidate-for-update"

/-- `etcSystemdSystem` (line 342). -/
def etcSystemdSystem : String := "/etc/systemd/system"

/-- The systemd unit file path of a unit (`path.Join(etcSystemdSystem, name)`). -/
def unitFilePathOf (name : String) : String := etcSystemdSystem ++ "/" ++ name

/-- `kubelet.PathKubeconfigBootstrap`. -/
def pathKubeconfigBootstrap : String := "/var/lib/kubelet/kubeconfig-bootstrap"

/-- `nodeagentv1alpha1.BootstrapTokenFilePath`. -/
def bootstrapTokenFilePath : String := "/var/lib/gardener-node-agent/credentials/bootstrap-token"

/-- `kubelet.PathKubeletDirectory`. -/
def pathKubeletDirectory : String := "/var/lib/kubelet"

/-- The kubelet client certificate read by `rebootstrapKubelet` (line 587). -/
def kubeletClientCertPath : String := pathKubeletDirectory ++ "/pki/kubelet-client-current.pem"

/-- The temporary directory for the kubelet client certificate (line 596-597). -/
def kubeletTempDir : String := pathKubeletDirectory ++ "/pki/temp"

/-- The temporary copy of the kubelet client certificate (line 596). -/
def kubeletTempCertPath : String := kubeletTempDir ++ "/kubelet-client-current.pem"

/-- `kubelet.PathKubeconfigReal`. -/
def pathKubeconfigReal : String := pathKubeletDirectory ++ "/kubeconfig-real"

/-- `extensionsv1alpha1.CommandStop`. -/
def commandStop : String := "stop"

/- ### Environment -/

/-- The environment supplies the outcome of every read and every fallible
operation, so the theorems below quantify over all behaviours of the
filesystem, D-Bus, the Kubernetes API and the other collaborators. -/
structure Env where
  /-- result of `r.Client.Get` on the OSC secret -/
  secretGet : SecretRes
  /-- result of `r.getNode` (by name or hostname lookup); `none` means the
  node is not registered yet -/
  getNode : Res (Option Node)
  /-- result of `extractOSCFromSecret`: the OSC and its checksum -/
  extractOSC : Res (OSC × String)
  /-- result of `getOSVersion` (parsing `/etc/os-release`) -/
  getOSVersion : Res String
  /-- result of `computeOperatingSystemConfigChanges` -/
  computeChanges : Res Changes
  /-- success/failure of each side-effecting operation -/
  ops : Event → OpRes
  /-- result of `r.FS.TempDir` in `applyChangedInlineFiles` -/
  tempDir : Res String
  /-- result of `r.FS.ReadFile` -/
  readFile : String → ReadRes
  /-- result of `r.FS.Exists` -/
  existsFile : String → Res Bool
  /-- result of `extensionsv1alpha1helper.Decode` on inline content
  (encoding, data); `none` is a decode error -/
  decode : String → String → Option String
  /-- result of `clientcmd.LoadFromFile` in `rebootstrapKubelet` -/
  loadKubeconfig : Res Unit
  /-- `r.Config.SyncPeriod` (abstract duration) -/
  syncPeriod : Nat

/-- Perform an operation that must succeed; a not-found error is an error like
any other here. -/
def emitOp (env : Env) (e : Event) : Step Unit :=
  match env.ops e with
  | OpRes.ok => ⟨[e], Except.ok ()⟩
  | OpRes.notFound => Step.fail
  | OpRes.err => Step.fail

/-- Perform a removal where `afero.ErrFileNotFound` is tolerated
(`err != nil && !errors.Is(err, afero.ErrFileNotFound)`). -/
def emitRemoveTolerant (env : Env) (e : Event) : Step Unit :=
  match env.ops e with
  | OpRes.ok => ⟨[e], Except.ok ()⟩
  | OpRes.notFound => pure ()
  | OpRes.err => Step.fail

/-- Perform an operation that cannot fail (logging, event recording,
`CancelContext`). -/
def emitFree (e : Event) : Step Unit := ⟨[e], Except.ok ()⟩

/- ### Applier helpers (translated from lines 347-690) -/

/-- `filepath.Dir`, for the paths handled here. -/
def dirOf (p : String) : String :=
  match (p.splitOn "/").dropLast with
  | [] => "."
  | parts => String.intercalate "/" parts

/-- `filepath.Base`, for the paths handled here. -/
def baseOf (p : String) : String := ((p.splitOn "/").getLastD p)

/-- One iteration of the `applyChangedInlineFiles` loop (lines 379-403):
skip files without inline content; make the directory, decode the data, write
a temporary file and move it over the final path. -/
def applyInlineFile (env : Env) (tmpDir : String) (f : FileSpec) : Step Unit :=
  match f.inline with
  | none => pure ()
  | some ic => do
      emitOp env (Event.mkdir (dirOf f.path))
      match env.decode ic.encoding ic.data with
      | none => Step.fail
      | some _ => do
          emitOp env (Event.write (tmpDir ++ "/" ++ baseOf f.path))
          emitOp env (Event.move (tmpDir ++ "/" ++ baseOf f.path) f.path)

/-- The `applyChangedInlineFiles` loop over the changed files. -/
def applyInlineFilesLoop (env : Env) (tmpDir : String) : List FileSpec → Step Unit
  | [] => pure ()
  | f :: rest => do
      applyInlineFile env tmpDir f
      applyInlineFilesLoop env tmpDir rest

/-- The deferred removal of the temporary directory at the end of
`applyChangedInlineFiles` (line 377); its error is swallowed by
`utilruntime.HandleError`. -/
def tmpDirCleanup (env : Env) (tmpDir : String) : List Event :=
  match env.ops (Event.removeAll tmpDir) with
  | OpRes.ok => [Event.removeAll tmpDir]
  | _ => []

/-- `applyChangedInlineFiles` (lines 371-406): create the temporary directory,
process each file, and remove the temporary directory on exit (deferred, its
error swallowed by `utilruntime.HandleError`). -/
def applyChangedInlineFiles (env : Env) (files : List FileSpec) : Step Unit :=
  match env.tempDir with
  | Res.err => Step.fail
  | Res.ok tmpDir =>
      ⟨(applyInlineFilesLoop env tmpDir files).events ++ tmpDirCleanup env tmpDir,
        (applyInlineFilesLoop env tmpDir files).res⟩

/-- `applyChangedImageRefFiles` (lines 355-369): copy each image-referenced
file out of its image. -/
def applyChangedImageRefFiles (env : Env) : List FileSpec → Step Unit
  | [] => pure ()
  | f :: rest =>
      match f.imageRef with
      | none => applyChangedImageRefFiles env rest
      | some ir => do
          emitOp env (Event.copyImage ir.image ir.filePathInImage f.path)
          applyChangedImageRefFiles env rest

/-- Write content to `p` only if it differs from the on-disk bytes, then
restore permissions unconditionally (lines 430-441 and 463-474). -/
def writeIfChangedThenChmod (env : Env) (p newContent oldContent : String) : Step Unit := do
  if newContent ≠ oldContent then emitOp env (Event.write p) else pure ()
  emitOp env (Event.chmod p)

/-- The unit-file part of `applyChangedUnits` (lines 424-442): read the
existing unit file (not-found tolerated), write only when the bytes differ,
restore permissions. -/
def applyUnitContent (env : Env) (u : ChangedUnit) : Step Unit :=
  match u.content with
  | none => pure ()
  | some c =>
      match env.readFile (unitFilePathOf u.name) with
      | ReadRes.err => Step.fail
      | ReadRes.found s => writeIfChangedThenChmod env (unitFilePathOf u.name) c s
      | ReadRes.notFound => writeIfChangedThenChmod env (unitFilePathOf u.name) c ""

/-- The changed-drop-ins loop of `applyChangedUnits` (lines 455-475). -/
def applyDropInsChanged (env : Env) (dir : String) : List DropIn → Step Unit
  | [] => pure ()
  | d :: rest => do
      (match env.readFile (dir ++ "/" ++ d.name) with
        | ReadRes.err => Step.fail
        | ReadRes.found s => writeIfChangedThenChmod env (dir ++ "/" ++ d.name) d.content s
        | ReadRes.notFound => writeIfChangedThenChmod env (dir ++ "/" ++ d.name) d.content "")
      applyDropInsChanged env dir rest

/-- The deleted-drop-ins loop of `applyChangedUnits` (lines 477-483). -/
def applyDropInsDeleted (env : Env) (dir : String) : List DropIn → Step Unit
  | [] => pure ()
  | d :: rest => do
      emitRemoveTolerant env (Event.remove (dir ++ "/" ++ d.name))
      applyDropInsDeleted env dir rest

/-- The drop-in part of `applyChangedUnits` (lines 444-484): remove the whole
drop-in directory when the desired drop-in set is empty, otherwise create it
and diff the changed and deleted drop-ins. -/
def applyUnitDropIns (env : Env) (u : ChangedUnit) : Step Unit :=
  if u.dropIns.isEmpty then
    emitRemoveTolerant env (Event.removeAll (unitFilePathOf u.name ++ ".d"))
  else do
    emitOp env (Event.mkdir (unitFilePathOf u.name ++ ".d"))
    applyDropInsChanged env (unitFilePathOf u.name ++ ".d") u.dropInsChanged
    applyDropInsDeleted env (unitFilePathOf u.name ++ ".d") u.dropInsDeleted

/-- The enable/disable decision of `applyChangedUnits` (lines 486-496): the
unit is enabled iff it is the node-agent's own unit or its `Enable` flag
defaults to true. -/
def applyUnitEnableOrDisable (env : Env) (u : ChangedUnit) : Step Unit :=
  if u.name = gnaUnitName ∨ u.enable.getD true then
    emitOp env (Event.enable u.name)
  else
    emitOp env (Event.disable u.name)

/-- Processing of one changed unit by `applyChangedUnits` (lines 421-497). -/
def applyChangedUnit (env : Env) (u : ChangedUnit) : Step Unit := do
  applyUnitContent env u
  applyUnitDropIns env u
  applyUnitEnableOrDisable env u

/-- `applyChangedUnits` (lines 420-500). -/
def applyChangedUnits (env : Env) : List ChangedUnit → Step Unit
  | [] => pure ()
  | u :: rest => do
      applyChangedUnit env u
      applyChangedUnits env rest

/-- `removeDeletedFiles` (lines 408-418): deletion tolerates an already-absent
file. -/
def removeDeletedFiles (env : Env) : List FileSpec → Step Unit
  | [] => pure ()
  | f :: rest => do
      emitRemoveTolerant env (Event.remove f.path)
      removeDeletedFiles env rest

/-- Processing of one deleted unit by `removeDeletedUnits` (lines 503-530):
disable, stop and remove the unit file only if it exists on disk; remove the
drop-in directory in any case. -/
def removeDeletedUnit (env : Env) (u : UnitSpec) : Step Unit :=
  match env.existsFile (unitFilePathOf u.name) with
  | Res.err => Step.fail
  | Res.ok unitFileExists => do
      (if unitFileExists then do
          emitOp env (Event.disable u.name)
          emitOp env (Event.stopUnit u.name)
          emitRemoveTolerant env (Event.remove (unitFilePathOf u.name))
        else pure ())
      emitRemoveTolerant env (Event.removeAll (unitFilePathOf u.name ++ ".d"))

/-- `removeDeletedUnits` (lines 502-533). -/
def removeDeletedUnits (env : Env) : List UnitSpec → Step Unit
  | [] => pure ()
  | u :: rest => do
      removeDeletedUnit env u
      removeDeletedUnits env rest

/- ### Unit command fan-out (`executeUnitCommands`, lines 535-584) -/

/-- A queued start/stop command of the fan-out. -/
inductive UnitCommand where
  | stopU (u : String)
  | restartU (u : String)
deriving DecidableEq, Repr

/-- The D-Bus event a queued command performs. -/
def UnitCommand.event : UnitCommand → Event
  | UnitCommand.stopU u => Event.stopUnit u
  | UnitCommand.restartU u => Event.restartUnit u

/-- The unit this command addresses. -/
def UnitCommand.target : UnitCommand → String
  | UnitCommand.stopU u => u
  | UnitCommand.restartU u => u

/-- The command queued for one changed unit (lines 569-574): stop when
`Enable` is false or `Command` is `stop`, otherwise restart. -/
def unitCommandFor (u : ChangedUnit) : UnitCommand :=
  if ¬(u.enable.getD true) ∨ u.command = some commandStop then
    UnitCommand.stopU u.name
  else
    UnitCommand.restartU u.name

/-- The full list of commands dispatched by the fan-out of
`executeUnitCommands` (lines 557-583): one command per changed unit except the
node-agent's own unit, plus a containerd restart when the containerd config
file changed and no changed unit already covers containerd (the
`fanoutCommands` below). -/
def fanoutBase (ch : Changes) : List UnitCommand :=
  ch.units.changed.filterMap (fun u =>
    if u.name = gnaUnitName then none else some (unitCommandFor u))

/-- Whether some changed unit already covers containerd (line 565-567). -/
def containerdChanged (ch : Changes) : Bool :=
  ch.units.changed.any (fun u => u.name = containerdUnitName)

/-- All commands of the fan-out, including the extra containerd restart of
lines 577-581. -/
def fanoutCommands (ch : Changes) : List UnitCommand :=
  if ch.containerd.configFileChange ∧ ¬containerdChanged ch then
    fanoutBase ch ++ [UnitCommand.restartU containerdUnitName]
  else
    fanoutBase ch

/-- The "must restart myself" flag (lines 562-563): set iff some changed unit
is the node-agent's own unit. -/
def mustRestartGNA (ch : Changes) : Bool :=
  ch.units.changed.any (fun u => u.name = gnaUnitName)

/-- `flow.Parallel` over the queued commands: all commands are attempted
regardless of individual failures, and the join fails iff any of them
failed. -/
def runParallel (env : Env) : List UnitCommand → Step Unit
  | [] => pure ()
  | c :: rest =>
      match env.ops c.event with
      | OpRes.ok =>
          ⟨c.event :: (runParallel env rest).events, (runParallel env rest).res⟩
      | _ => ⟨(runParallel env rest).events, Except.error Fault.goError⟩

/-- `executeUnitCommands` (lines 535-584): queue the commands, run them in the
parallel fan-out, and report whether the node-agent itself must restart. -/
def executeUnitCommands (env : Env) (ch : Changes) : Step Bool := do
  runParallel env (fanoutCommands ch)
  pure (mustRestartGNA ch)

/-- `rebootstrapKubelet` (lines 586-646): save the current kubelet client
certificate, rewrite the bootstrap kubeconfig to use it, clear the old PKI
material and the real kubeconfig, restart the kubelet, drop the temporary
certificate. -/
def rebootstrapKubelet (env : Env) : Step Unit :=
  match env.readFile kubeletClientCertPath with
  | ReadRes.notFound => Step.fail
  | ReadRes.err => Step.fail
  | ReadRes.found _ => do
      emitOp env (Event.mkdir kubeletTempDir)
      emitOp env (Event.write kubeletTempCertPath)
      match env.loadKubeconfig with
      | Res.err => Step.fail
      | Res.ok _ => do
          emitOp env (Event.write pathKubeconfigBootstrap)
          emitRemoveTolerant env (Event.removeAll (pathKubeletDirectory ++ "/pki"))
          emitRemoveTolerant env (Event.remove pathKubeconfigReal)
          emitOp env (Event.restartUnit kubeletUnitName)
          emitRemoveTolerant env (Event.removeAll kubeletTempCertPath)

/- ### The reconciliation pass (`Reconcile`, lines 77-318) -/

/-- The no-op fast path test (line 112): the node exists and its
applied-OSC checksum annotation equals the desired checksum (a missing Go map
key reads as `""`). -/
def nodeChecksumMatches (node : Option Node) (checksum : String) : Bool :=
  match node with
  | some n => (lookupKV n.annotations annotationKeyChecksumAppliedOSC).getD "" = checksum
  | none => false

/-- The in-place-update gate (lines 117-148).  When the change-set implies an
in-place update: read the node's labels (a nil node faults here, line 120);
requeue after 5 seconds when the MCM ready-for-update label is missing; when
the OS version changed, annotate the node and run the update script (a missing
script path is an error).  Returns `some r` to return early with requeue delay
`r`, `none` to continue the pass. -/
def inPlaceGate (env : Env) (node : Option Node) (osc : OSC) (ch : Changes) :
    Step (Option Nat) :=
  if isInPlaceUpdate ch then
    match node with
    | none => Step.nilFault
    | some n =>
        if (lookupKV n.labels labelKeyMachineIsReadyForUpdate).isNone then
          pure (some 5)
        else
          if ch.osVersion.changed then do
            emitOp env (Event.patchNodeUpdateOSVersionAnn ch.osVersion.version)
            match osc.updateScriptPath with
            | none => Step.fail
            | some _ => do
                emitOp env (Event.execUpdateScript ch.osVersion.version)
                pure none
          else pure none
  else pure none

/-- The six applier stages (lines 150-179), each preceded by its `log.Info`
marker: containerd configuration, changed inline files, containerd registries,
changed image-ref files, changed units, deleted units. -/
def applyPhase (env : Env) (ch : Changes) : Step Unit := do
  emitFree (Event.stage Stage.containerdConfig)
  emitOp env Event.reconcileContainerdConfig
  emitFree (Event.stage Stage.inlineFiles)
  applyChangedInlineFiles env ch.files.changed
  emitFree (Event.stage Stage.containerdRegistries)
  emitOp env Event.reconcileContainerdRegistries
  emitFree (Event.stage Stage.imageRefFiles)
  applyChangedImageRefFiles env ch.files.changed
  emitFree (Event.stage Stage.changedUnits)
  applyChangedUnits env ch.units.changed
  emitFree (Event.stage Stage.deletedUnits)
  removeDeletedUnits env ch.units.deleted

/-- The in-place steps after the unit commands (lines 199-228): rebootstrap
the kubelet on CA rotation, then wait for kubelet health on a minor-version
update. -/
def inPlaceMid (env : Env) (ch : Changes) : Step Unit :=
  if isInPlaceUpdate ch then do
    (if ch.caRotation then rebootstrapKubelet env else pure ())
    (if ch.kubeletUpdate.minorVersionUpdate then emitOp env Event.kubeletHealthWait
      else pure ())
  else pure ()

/-- The in-place steps after file removal (lines 250-286): list and delete the
pods on the node (dereferencing the node), and label the node as successfully
updated when the update annotation is present and the reported OS version
matches the desired one. -/
def inPlacePost (env : Env) (node : Option Node) (osc : OSC) (osVersion : String) :
    Step Unit :=
  match node with
  | none => Step.nilFault
  | some n => do
      emitOp env Event.listPods
      emitOp env Event.deletePods
      if (lookupKV n.annotations annotationUpdateOSVersion).isSome then
        if osVersion = osc.osVersion.getD "" then
          emitOp env Event.patchNodeUpdateSuccessfulLabel
        else pure ()
      else pure ()

/-- The steps after the baseline write in the non-restart case (lines
299-317): requeue when the node is not registered yet; otherwise remove the
bootstrap credential files, record the event, and patch the node with the
kubernetes-version label and the applied-OSC checksum annotation.  Success
requeues after the configured sync period. -/
def postApplyTail (env : Env) (node : Option Node) (checksum : String) : Step (Option Nat) :=
  match node with
  | none => pure (some 5)
  | some _ => do
      emitRemoveTolerant env (Event.remove pathKubeconfigBootstrap)
      emitRemoveTolerant env (Event.remove bootstrapTokenFilePath)
      emitFree Event.recordEventOSCApplied
      emitOp env (Event.patchNodeChecksum checksum)
      pure (some env.syncPeriod)

/-- Everything after the applier stages (lines 181-317): daemon-reload,
defensive containerd start, the parallel unit-command fan-out, the in-place
kubelet steps, the registry wait, removal of deleted files, the in-place pod
deletion and node labelling, persisting the baseline, and either cancelling
the context (when the node-agent must restart itself) or finishing the pass
on the node object. The daemon-reload is split off as `postApply` below;
`postApplyRest` is everything after it (lines 186-317). -/
def postApplyRest (env : Env) (node : Option Node) (osc : OSC) (osVersion : String)
    (ch : Changes) (checksum : String) : Step (Option Nat) := do
  emitOp env (Event.startUnit containerdUnitName)
  let mustRestart ← executeUnitCommands env ch
  inPlaceMid env ch
  emitOp env Event.waitForRegistries
  removeDeletedFiles env ch.files.deleted
  (if isInPlaceUpdate ch then inPlacePost env node osc osVersion else pure ())
  emitOp env (Event.write lastAppliedOSCPath)
  if mustRestart then do
    emitFree Event.cancelContext
    pure none
  else
    postApplyTail env node checksum

/-- Lines 181-317: the daemon-reload followed by `postApplyRest`. -/
def postApply (env : Env) (node : Option Node) (osc : OSC) (osVersion : String)
    (ch : Changes) (checksum : String) : Step (Option Nat) := do
  emitOp env Event.daemonReload
  postApplyRest env node osc osVersion ch checksum

/-- The local node object carried through the pass: when the OS version
changed, the gate stored the update annotation on the in-memory node object
(line 130) before patching it. -/
def nodeAfterGate (node : Option Node) (ch : Changes) : Option Node :=
  if ch.osVersion.changed then
    node.map (fun n =>
      { n with annotations := setKV n.annotations annotationUpdateOSVersion ch.osVersion.version })
  else node

/-- The main body of the pass once the prelude reads succeeded and the
fast path did not hit. -/
def mainPass (env : Env) (node : Option Node) (osc : OSC) (checksum : String)
    (osVersion : String) (ch : Changes) : Step (Option Nat) := do
  let gate ← inPlaceGate env node osc ch
  match gate with
  | some r => pure (some r)
  | none => do
      applyPhase env ch
      postApply env (nodeAfterGate node ch) osc osVersion ch checksum

/-- How `Reconcile` returns: success with an optional requeue delay, a Go
error (retried with backoff by the controller), or a runtime fault. -/
inductive Outcome where
  | ok (requeueAfter : Option Nat)
  | err
  | fault
deriving DecidableEq, Repr

/-- Convert a finished `Step` into the returned outcome and trace. -/
def runPass (s : Step (Option Nat)) : List Event × Outcome :=
  match s.res with
  | Except.ok o => (s.events, Outcome.ok o)
  | Except.error Fault.goError => (s.events, Outcome.err)
  | Except.error Fault.nilDeref => (s.events, Outcome.fault)

/-- `Reconcile` (lines 77-318): fetch the secret (gone ends the pass), fetch
the node, extract the OSC, read the OS version, compute the change-set; take
the no-op fast path when the node's checksum annotation already matches;
otherwise run the main pass. -/
def reconcile (env : Env) : List Event × Outcome :=
  match env.secretGet with
  | SecretRes.notFound => ([], Outcome.ok none)
  | SecretRes.err => ([], Outcome.err)
  | SecretRes.found =>
      match env.getNode with
      | Res.err => ([], Outcome.err)
      | Res.ok node =>
          match env.extractOSC with
          | Res.err => ([], Outcome.err)
          | Res.ok oscAndChecksum =>
              match env.getOSVersion with
              | Res.err => ([], Outcome.err)
              | Res.ok osVersion =>
                  match env.computeChanges with
                  | Res.err => ([], Outcome.err)
                  | Res.ok ch =>
                      if nodeChecksumMatches node oscAndChecksum.2 then
                        ([], Outcome.ok none)
                      else
                        runPass (mainPass env node oscAndChecksum.1
                          oscAndChecksum.2 osVersion ch)

/- ### Event classification -/

/-- The constructor (kind) of an event, forgetting its arguments; used to
state which kinds of events a helper can emit. -/
inductive EvKind where
  | stageK
  | ctdConfigK
  | mkdirK
  | writeK
  | moveK
  | chmodK
  | copyImageK
  | ctdRegistriesK
  | removeK
  | removeAllK
  | daemonReloadK
  | enableK
  | disableK
  | startK
  | stopK
  | restartK
  | waitRegistriesK
  | patchAnnOSK
  | execScriptK
  | kubeletHealthK
  | listPodsK
  | deletePodsK
  | patchLabelOKK
  | recordEventK
  | patchChecksumK
  | cancelK
deriving DecidableEq, Repr

/-- The kind of an event. -/
def Event.kind : Event → EvKind
  | Event.stage _ => EvKind.stageK
  | Event.reconcileContainerdConfig => EvKind.ctdConfigK
  | Event.mkdir _ => EvKind.mkdirK
  | Event.write _ => EvKind.writeK
  | Event.move _ _ => EvKind.moveK
  | Event.chmod _ => EvKind.chmodK
  | Event.copyImage _ _ _ => EvKind.copyImageK
  | Event.reconcileContainerdRegistries => EvKind.ctdRegistriesK
  | Event.remove _ => EvKind.removeK
  | Event.removeAll _ => EvKind.removeAllK
  | Event.daemonReload => EvKind.daemonReloadK
  | Event.enable _ => EvKind.enableK
  | Event.disable _ => EvKind.disableK
  | Event.startUnit _ => EvKind.startK
  | Event.stopUnit _ => EvKind.stopK
  | Event.restartUnit _ => EvKind.restartK
  | Event.waitForRegistries => EvKind.waitRegistriesK
  | Event.patchNodeUpdateOSVersionAnn _ => EvKind.patchAnnOSK
  | Event.execUpdateScript _ => EvKind.execScriptK
  | Event.kubeletHealthWait => EvKind.kubeletHealthK
  | Event.listPods => EvKind.listPodsK
  | Event.deletePods => EvKind.deletePodsK
  | Event.patchNodeUpdateSuccessfulLabel => EvKind.patchLabelOKK
  | Event.recordEventOSCApplied => EvKind.recordEventK
  | Event.patchNodeChecksum _ => EvKind.patchChecksumK
  | Event.cancelContext => EvKind.cancelK

/-- The stage markers of a trace, in order. -/
def stageList (tr : List Event) : List Stage :=
  tr.filterMap (fun e => match e with | Event.stage s => some s | _ => none)

/-- The applier stages in their literal source order (lines 150-179). -/
def canonicalStages : List Stage :=
  [Stage.containerdConfig, Stage.inlineFiles, Stage.containerdRegistries,
    Stage.imageRefFiles, Stage.changedUnits, Stage.deletedUnits]

/-- The kinds a changed-unit application can emit. -/
def changedUnitKinds : List EvKind :=
  [EvKind.writeK, EvKind.chmodK, EvKind.removeAllK, EvKind.mkdirK, EvKind.removeK,
    EvKind.enableK, EvKind.disableK]

/-- The kinds the whole apply phase can emit. -/
def applyPhaseKinds : List EvKind :=
  [EvKind.stageK, EvKind.ctdConfigK, EvKind.ctdRegistriesK, EvKind.mkdirK,
    EvKind.writeK, EvKind.moveK, EvKind.chmodK, EvKind.copyImageK, EvKind.removeK,
    EvKind.removeAllK, EvKind.enableK, EvKind.disableK, EvKind.stopK]

/-- The single conjunction of facts needed about every event after the
daemon-reload: it is not a daemon-reload, not a stage marker, and any file
write targets the kubelet-rebootstrap files or the baseline. -/
def PostRestEvent (e : Event) : Prop :=
  e.kind ≠ EvKind.daemonReloadK ∧ e.kind ≠ EvKind.stageK ∧
    ∀ p, e = Event.write p →
      p = kubeletTempCertPath ∨ p = pathKubeconfigBootstrap ∨ p = lastAppliedOSCPath

/- ### Concrete instances used to exercise the theorems -/

/-- An empty change-set: nothing changed, nothing deleted. -/
def emptyChanges : Changes :=
  ⟨⟨false, ""⟩, ⟨false, false⟩, false, false, ⟨[], []⟩, ⟨[], []⟩, ⟨false⟩⟩

/-- A change-set implying an in-place update through a CA rotation. -/
def caRotationChanges : Changes :=
  { emptyChanges with caRotation := true }

/-- A change-set whose only change is the node-agent's own unit. -/
def gnaChanges : Changes :=
  { emptyChanges with
    units := ⟨[⟨gnaUnitName, none, none, some "[Unit]", [], [], []⟩], []⟩ }

/-- A change-set whose only entry is one deleted unit. -/
def deletedUnitChanges : Changes :=
  { emptyChanges with
    units := ⟨[], [⟨"old.service", none, none, none, [], []⟩]⟩ }

/-- A registered node with no annotations or labels. -/
def nodeBase : Node := ⟨"node-1", [], []⟩

/-- An environment where every collaborator succeeds and the change-set is
empty. -/
def envBase : Env where
  secretGet := SecretRes.found
  getNode := Res.ok (some nodeBase)
  extractOSC := Res.ok (⟨none, none⟩, "abc")
  getOSVersion := Res.ok "1.0"
  computeChanges := Res.ok emptyChanges
  ops := fun _ => OpRes.ok
  tempDir := Res.ok "/tmp/osc-tmp"
  readFile := fun _ => ReadRes.notFound
  existsFile := fun _ => Res.ok true
  decode := fun _ d => some d
  loadKubeconfig := Res.ok ()
  syncPeriod := 30

/-- Fast-path environment: the node already carries the checksum. -/
def envC3 : Env :=
  { envBase with
    getNode := Res.ok (some ⟨"node-1", [(annotationKeyChecksumAppliedOSC, "abc")], []⟩) }

/-- In-place update pending, node not labeled ready-for-update. -/
def envC8 : Env :=
  { envBase with computeChanges := Res.ok caRotationChanges }

/-- In-place update pending while the node is not registered. -/
def envC10 : Env :=
  { envBase with
    getNode := Res.ok none
    computeChanges := Res.ok caRotationChanges }

/-- A pass whose only change is the node-agent's own unit: the baseline is
written and the context cancelled. -/
def envC4 : Env :=
  { envBase with computeChanges := Res.ok gnaChanges }

/-- A pass with one deleted unit whose unit file exists. -/
def envC5 : Env :=
  { envBase with computeChanges := Res.ok deletedUnitChanges }

/-- A pass where everything succeeds except the removal of the kubelet
bootstrap kubeconfig, which happens after the baseline write. -/
def envC1 : Env :=
  { envBase with
    ops := fun e => if e = Event.remove pathKubeconfigBootstrap then OpRes.err
      else OpRes.ok }

/-- A changed unit with `Enable=false` and unchanged content whose dependent
file changed (scenario C of the spec). -/
def u2spec : ChangedUnit :=
  ⟨"u2.service", some false, none, some "[Unit]", [], [], []⟩

/-- A change-set containing `u2spec` as its only changed unit. -/
def u2Changes : Changes :=
  { emptyChanges with units := ⟨[u2spec], []⟩ }

/-- A unit that was deleted but whose unit file is already gone. -/
def goneUnit : UnitSpec := ⟨"gone.service", none, none, none, [], []⟩

/-- A deleted unit whose unit file still exists. -/
def oldUnit : UnitSpec := ⟨"old.service", none, none, none, [], []⟩

/-- Environment whose filesystem lacks `goneUnit`'s unit file. -/
def envC9gone : Env :=
  { envBase with existsFile := fun _ => Res.ok false }

/-- The events of `reconcile envC4` before the context cancellation. -/
def envC4TraceHead : List Event :=
  [Event.stage Stage.containerdConfig, Event.reconcileContainerdConfig,
    Event.stage Stage.inlineFiles, Event.removeAll "/tmp/osc-tmp",
    Event.stage Stage.containerdRegistries, Event.reconcileContainerdRegistries,
    Event.stage Stage.imageRefFiles, Event.stage Stage.changedUnits,
    Event.write (unitFilePathOf gnaUnitName), Event.chmod (unitFilePathOf gnaUnitName),
    Event.removeAll (unitFilePathOf gnaUnitName ++ ".d"), Event.enable gnaUnitName,
    Event.stage Stage.deletedUnits, Event.daemonReload,
    Event.startUnit containerdUnitName, Event.waitForRegistries,
    Event.write lastAppliedOSCPath]

/- ## Proofs -/

@[simp] theorem Step.pure_events {α : Type} (a : α) :
    (pure a : Step α).events = [] := rfl

@[simp] theorem Step.pure_res {α : Type} (a : α) :
    (pure a : Step α).res = Except.ok a := rfl

@[simp] theorem Step.events_bind {α β : Type} (x : Step α) (f : α → Step β) :
    (x >>= f).events = x.events ++ (match x.res with
      | Except.ok a => (f a).events
      | Except.error _ => []) := by
  rcases x with ⟨tr, r⟩
  cases r
  · show tr = tr ++ []
    rw [List.append_nil]
  · rfl

@[simp] theorem Step.res_bind {α β : Type} (x : Step α) (f : α → Step β) :
    (x >>= f).res = (match x.res with
      | Except.ok a => (f a).res
      | Except.error e => Except.error e) := by
  rcases x with ⟨tr, r⟩
  cases r
  · rfl
  · rfl

/-- Membership in the trace of a sequential composition. -/
theorem Step.mem_events_bind {α β : Type} {x : Step α} {f : α → Step β} {e : Event} :
    e ∈ (x >>= f).events ↔
      e ∈ x.events ∨ ∃ a, x.res = Except.ok a ∧ e ∈ (f a).events := by
  rcases x with ⟨tr, r⟩
  cases r <;> simp

theorem emitOp_mem {env : Env} {ev e : Event} (h : e ∈ (emitOp env ev).events) : e = ev := by
  unfold emitOp at h
  cases henv : env.ops ev <;> rw [henv] at h <;> simp [Step.fail] at h
  exact h

theorem emitRemoveTolerant_mem {env : Env} {ev e : Event}
    (h : e ∈ (emitRemoveTolerant env ev).events) : e = ev := by
  unfold emitRemoveTolerant at h
  cases henv : env.ops ev <;> rw [henv] at h <;> simp [Step.fail] at h
  exact h

theorem emitFree_mem {ev e : Event} (h : e ∈ (emitFree ev).events) : e = ev := by
  simp [emitFree] at h
  exact h

/-- Case analysis on a mandatory operation. -/
theorem emitOp_cases (env : Env) (ev : Event) :
    emitOp env ev = ⟨[ev], Except.ok ()⟩ ∨ emitOp env ev = Step.fail := by
  unfold emitOp
  cases env.ops ev <;> simp

/-- Case analysis on a not-found-tolerant removal. -/
theorem emitRemoveTolerant_cases (env : Env) (ev : Event) :
    emitRemoveTolerant env ev = ⟨[ev], Except.ok ()⟩ ∨
      emitRemoveTolerant env ev = ⟨[], Except.ok ()⟩ ∨
      emitRemoveTolerant env ev = Step.fail := by
  unfold emitRemoveTolerant
  cases env.ops ev <;> simp [pure]

/- ### Which kinds of events each helper can emit -/

theorem writeIfChangedThenChmod_kinds (env : Env) (p c old : String) :
    ∀ e ∈ (writeIfChangedThenChmod env p c old).events,
      e.kind ∈ [EvKind.writeK, EvKind.chmodK] := by
  intro e he
  unfold writeIfChangedThenChmod at he
  split at he
  · simp only [Step.mem_events_bind] at he
    rcases he with he | ⟨a, -, he⟩
    · rw [emitOp_mem he]; simp [Event.kind]
    · rw [emitOp_mem he]; simp [Event.kind]
  · simp only [Step.mem_events_bind] at he
    rcases he with he | ⟨a, -, he⟩
    · simp at he
    · rw [emitOp_mem he]; simp [Event.kind]

theorem applyInlineFile_kinds (env : Env) (tmpDir : String) (f : FileSpec) :
    ∀ e ∈ (applyInlineFile env tmpDir f).events,
      e.kind ∈ [EvKind.mkdirK, EvKind.writeK, EvKind.moveK] := by
  intro e he
  unfold applyInlineFile at he
  split at he
  · simp at he
  · simp only [Step.mem_events_bind] at he
    rcases he with he | ⟨a, -, he⟩
    · rw [emitOp_mem he]; simp [Event.kind]
    · split at he
      · simp [Step.fail] at he
      · simp only [Step.mem_events_bind] at he
        rcases he with he | ⟨b, -, he⟩
        · rw [emitOp_mem he]; simp [Event.kind]
        · rw [emitOp_mem he]; simp [Event.kind]

theorem applyInlineFilesLoop_kinds (env : Env) (tmpDir : String) (files : List FileSpec) :
    ∀ e ∈ (applyInlineFilesLoop env tmpDir files).events,
      e.kind ∈ [EvKind.mkdirK, EvKind.writeK, EvKind.moveK] := by
  induction files with
  | nil => intro e he; simp [applyInlineFilesLoop] at he
  | cons f rest ih =>
      intro e he
      unfold applyInlineFilesLoop at he
      simp only [Step.mem_events_bind] at he
      rcases he with he | ⟨a, -, he⟩
      · exact applyInlineFile_kinds env tmpDir f e he
      · exact ih e he

theorem tmpDirCleanup_mem {env : Env} {tmpDir : String} {e : Event}
    (h : e ∈ tmpDirCleanup env tmpDir) : e = Event.removeAll tmpDir := by
  unfold tmpDirCleanup at h
  split at h
  · simp at h; exact h
  · simp at h

theorem applyChangedInlineFiles_kinds (env : Env) (files : List FileSpec) :
    ∀ e ∈ (applyChangedInlineFiles env files).events,
      e.kind ∈ [EvKind.mkdirK, EvKind.writeK, EvKind.moveK, EvKind.removeAllK] := by
  intro e he
  unfold applyChangedInlineFiles at he
  split at he
  · simp [Step.fail] at he
  · simp only [List.mem_append] at he
    rcases he with he | he
    · have := applyInlineFilesLoop_kinds env _ files e he
      simp at this ⊢
      tauto
    · rw [tmpDirCleanup_mem he]
      simp [Event.kind]

theorem applyChangedImageRefFiles_kinds (env : Env) (files : List FileSpec) :
    ∀ e ∈ (applyChangedImageRefFiles env files).events,
      e.kind ∈ [EvKind.copyImageK] := by
  induction files with
  | nil => intro e he; simp [applyChangedImageRefFiles] at he
  | cons f rest ih =>
      intro e he
      unfold applyChangedImageRefFiles at he
      split at he
      · exact ih e he
      · simp only [Step.mem_events_bind] at he
        rcases he with he | ⟨a, -, he⟩
        · rw [emitOp_mem he]; simp [Event.kind]
        · exact ih e he

theorem applyUnitContent_kinds (env : Env) (u : ChangedUnit) :
    ∀ e ∈ (applyUnitContent env u).events,
      e.kind ∈ [EvKind.writeK, EvKind.chmodK] := by
  intro e he
  unfold applyUnitContent at he
  split at he
  · simp at he
  · split at he
    · simp [Step.fail] at he
    · exact writeIfChangedThenChmod_kinds env _ _ _ e he
    · exact writeIfChangedThenChmod_kinds env _ _ _ e he

theorem applyDropInsChanged_kinds (env : Env) (dir : String) (ds : List DropIn) :
    ∀ e ∈ (applyDropInsChanged env dir ds).events,
      e.kind ∈ [EvKind.writeK, EvKind.chmodK] := by
  induction ds with
  | nil => intro e he; simp [applyDropInsChanged] at he
  | cons d rest ih =>
      intro e he
      unfold applyDropInsChanged at he
      simp only [Step.mem_events_bind] at he
      rcases he with he | ⟨a, -, he⟩
      · split at he
        · simp [Step.fail] at he
        · exact writeIfChangedThenChmod_kinds env _ _ _ e he
        · exact writeIfChangedThenChmod_kinds env _ _ _ e he
      · exact ih e he

theorem applyDropInsDeleted_kinds (env : Env) (dir : String) (ds : List DropIn) :
    ∀ e ∈ (applyDropInsDeleted env dir ds).events,
      e.kind ∈ [EvKind.removeK] := by
  induction ds with
  | nil => intro e he; simp [applyDropInsDeleted] at he
  | cons d rest ih =>
      intro e he
      unfold applyDropInsDeleted at he
      simp only [Step.mem_events_bind] at he
      rcases he with he | ⟨a, -, he⟩
      · rw [emitRemoveTolerant_mem he]; simp [Event.kind]
      · exact ih e he

theorem applyUnitDropIns_kinds (env : Env) (u : ChangedUnit) :
    ∀ e ∈ (applyUnitDropIns env u).events,
      e.kind ∈ [EvKind.removeAllK, EvKind.mkdirK, EvKind.writeK, EvKind.chmodK,
        EvKind.removeK] := by
  intro e he
  unfold applyUnitDropIns at he
  split at he
  · rw [emitRemoveTolerant_mem he]; simp [Event.kind]
  · simp only [Step.mem_events_bind] at he
    rcases he with he | ⟨a, -, he⟩
    · rw [emitOp_mem he]; simp [Event.kind]
    · rcases he with he | ⟨b, -, he⟩
      · have := applyDropInsChanged_kinds env _ _ e he
        simp at this ⊢
        tauto
      · have := applyDropInsDeleted_kinds env _ _ e he
        simp at this ⊢
        tauto

theorem applyUnitEnableOrDisable_kinds (env : Env) (u : ChangedUnit) :
    ∀ e ∈ (applyUnitEnableOrDisable env u).events,
      e.kind ∈ [EvKind.enableK, EvKind.disableK] := by
  intro e he
  unfold applyUnitEnableOrDisable at he
  split at he
  · rw [emitOp_mem he]; simp [Event.kind]
  · rw [emitOp_mem he]; simp [Event.kind]

theorem applyChangedUnit_kinds (env : Env) (u : ChangedUnit) :
    ∀ e ∈ (applyChangedUnit env u).events, e.kind ∈ changedUnitKinds := by
  intro e he
  unfold applyChangedUnit at he
  simp only [Step.mem_events_bind] at he
  rcases he with he | ⟨a, -, he | ⟨b, -, he⟩⟩
  · have := applyUnitContent_kinds env u e he
    simp [changedUnitKinds] at this ⊢
    tauto
  · have := applyUnitDropIns_kinds env u e he
    simp [changedUnitKinds] at this ⊢
    tauto
  · have := applyUnitEnableOrDisable_kinds env u e he
    simp [changedUnitKinds] at this ⊢
    tauto

theorem applyChangedUnits_kinds (env : Env) (us : List ChangedUnit) :
    ∀ e ∈ (applyChangedUnits env us).events, e.kind ∈ changedUnitKinds := by
  induction us with
  | nil => intro e he; simp [applyChangedUnits] at he
  | cons u rest ih =>
      intro e he
      unfold applyChangedUnits at he
      simp only [Step.mem_events_bind] at he
      rcases he with he | ⟨a, -, he⟩
      · exact applyChangedUnit_kinds env u e he
      · exact ih e he

theorem removeDeletedFiles_kinds (env : Env) (files : List FileSpec) :
    ∀ e ∈ (removeDeletedFiles env files).events, e.kind ∈ [EvKind.removeK] := by
  induction files with
  | nil => intro e he; simp [removeDeletedFiles] at he
  | cons f rest ih =>
      intro e he
      unfold removeDeletedFiles at he
      simp only [Step.mem_events_bind] at he
      rcases he with he | ⟨a, -, he⟩
      · rw [emitRemoveTolerant_mem he]; simp [Event.kind]
      · exact ih e he

/-- Events of one deleted unit's removal: disable and stop address that unit
by name, plus file/drop-in removals. -/
theorem removeDeletedUnit_shape (env : Env) (u : UnitSpec) :
    ∀ e ∈ (removeDeletedUnit env u).events,
      e = Event.disable u.name ∨ e = Event.stopUnit u.name ∨
        (∃ p, e = Event.remove p) ∨ (∃ p, e = Event.removeAll p) := by
  intro e he
  unfold removeDeletedUnit at he
  split at he
  · simp [Step.fail] at he
  · simp only [Step.mem_events_bind] at he
    rcases he with he | ⟨a, -, he⟩
    · split at he
      · simp only [Step.mem_events_bind] at he
        rcases he with he | ⟨b, -, he | ⟨c, -, he⟩⟩
        · rw [emitOp_mem he]; exact Or.inl rfl
        · rw [emitOp_mem he]; exact Or.inr (Or.inl rfl)
        · rw [emitRemoveTolerant_mem he]
          exact Or.inr (Or.inr (Or.inl ⟨_, rfl⟩))
      · simp at he
    · rw [emitRemoveTolerant_mem he]
      exact Or.inr (Or.inr (Or.inr ⟨_, rfl⟩))

theorem removeDeletedUnits_shape (env : Env) (us : List UnitSpec) :
    ∀ e ∈ (removeDeletedUnits env us).events,
      (∃ u ∈ us, e = Event.disable u.name ∨ e = Event.stopUnit u.name) ∨
        (∃ p, e = Event.remove p) ∨ (∃ p, e = Event.removeAll p) := by
  induction us with
  | nil => intro e he; simp [removeDeletedUnits] at he
  | cons u rest ih =>
      intro e he
      unfold removeDeletedUnits at he
      simp only [Step.mem_events_bind] at he
      rcases he with he | ⟨a, -, he⟩
      · rcases removeDeletedUnit_shape env u e he with h | h | h | h
        · exact Or.inl ⟨u, by simp, Or.inl h⟩
        · exact Or.inl ⟨u, by simp, Or.inr h⟩
        · tauto
        · tauto
      · rcases ih e he with ⟨v, hv, h⟩ | h | h
        · exact Or.inl ⟨v, by simp [hv], h⟩
        · tauto
        · tauto

theorem inPlaceGate_kinds (env : Env) (node : Option Node) (osc : OSC) (ch : Changes) :
    ∀ e ∈ (inPlaceGate env node osc ch).events,
      e.kind ∈ [EvKind.patchAnnOSK, EvKind.execScriptK] := by
  intro e he
  unfold inPlaceGate at he
  split at he
  case isTrue =>
    split at he
    · simp [Step.nilFault] at he
    · split at he
      · simp at he
      · split at he
        · simp only [Step.mem_events_bind] at he
          rcases he with he | ⟨a, -, he⟩
          · rw [emitOp_mem he]; simp [Event.kind]
          · split at he
            · simp [Step.fail] at he
            · simp only [Step.mem_events_bind] at he
              rcases he with he | ⟨b, -, he⟩
              · rw [emitOp_mem he]; simp [Event.kind]
              · simp at he
        · simp at he
  case isFalse => simp at he

/-- Every event of the fan-out execution is the event of one of its
commands. -/
theorem runParallel_mem {env : Env} {cmds : List UnitCommand} :
    ∀ e ∈ (runParallel env cmds).events, ∃ c ∈ cmds, e = c.event := by
  induction cmds with
  | nil => intro e he; simp [runParallel] at he
  | cons c rest ih =>
      intro e he
      unfold runParallel at he
      split at he
      · simp only [List.mem_cons] at he
        rcases he with he | he
        · exact ⟨c, by simp, he⟩
        · rcases ih e he with ⟨c', hc', rfl⟩
          exact ⟨c', by simp [hc'], rfl⟩
      · rcases ih e he with ⟨c', hc', rfl⟩
        exact ⟨c', by simp [hc'], rfl⟩

theorem executeUnitCommands_mem {env : Env} {ch : Changes} :
    ∀ e ∈ (executeUnitCommands env ch).events, ∃ c ∈ fanoutCommands ch, e = c.event := by
  intro e he
  unfold executeUnitCommands at he
  simp only [Step.mem_events_bind] at he
  rcases he with he | ⟨a, -, he⟩
  · exact runParallel_mem e he
  · simp at he

theorem executeUnitCommands_kinds {env : Env} {ch : Changes} :
    ∀ e ∈ (executeUnitCommands env ch).events,
      e.kind ∈ [EvKind.stopK, EvKind.restartK] := by
  intro e he
  rcases executeUnitCommands_mem e he with ⟨c, -, rfl⟩
  cases c <;> simp [UnitCommand.event, Event.kind]

/-- The flag returned by `executeUnitCommands` on success. -/
theorem executeUnitCommands_res {env : Env} {ch : Changes} {b : Bool}
    (h : (executeUnitCommands env ch).res = Except.ok b) : b = mustRestartGNA ch := by
  unfold executeUnitCommands at h
  rw [Step.res_bind] at h
  rcases hr : (runParallel env (fanoutCommands ch)).res with e | a
  · rw [hr] at h; simp at h
  · rw [hr] at h
    simp at h
    exact h.symm

/-- The events of `rebootstrapKubelet`: directory creation, the two fixed-path
writes, removals, and the kubelet restart. -/
theorem rebootstrapKubelet_shape (env : Env) :
    ∀ e ∈ (rebootstrapKubelet env).events,
      e = Event.mkdir kubeletTempDir ∨ e = Event.write kubeletTempCertPath ∨
        e = Event.write pathKubeconfigBootstrap ∨ (∃ p, e = Event.removeAll p) ∨
        (∃ p, e = Event.remove p) ∨ e = Event.restartUnit kubeletUnitName := by
  intro e he
  unfold rebootstrapKubelet at he
  split at he
  · simp [Step.fail] at he
  · simp [Step.fail] at he
  · simp only [Step.mem_events_bind] at he
    rcases he with he | ⟨a, -, he⟩
    · rw [emitOp_mem he]; tauto
    · rcases he with he | ⟨b, -, he⟩
      · rw [emitOp_mem he]; tauto
      · split at he
        · simp [Step.fail] at he
        · simp only [Step.mem_events_bind] at he
          rcases he with he | ⟨c, -, he | ⟨d, -, he | ⟨x, -, he | ⟨y, -, he⟩⟩⟩⟩
          · rw [emitOp_mem he]; tauto
          · rw [emitRemoveTolerant_mem he]
            exact Or.inr (Or.inr (Or.inr (Or.inl ⟨_, rfl⟩)))
          · rw [emitRemoveTolerant_mem he]
            exact Or.inr (Or.inr (Or.inr (Or.inr (Or.inl ⟨_, rfl⟩))))
          · rw [emitOp_mem he]; tauto
          · rw [emitRemoveTolerant_mem he]
            exact Or.inr (Or.inr (Or.inr (Or.inl ⟨_, rfl⟩)))

theorem inPlaceMid_shape (env : Env) (ch : Changes) :
    ∀ e ∈ (inPlaceMid env ch).events,
      e = Event.mkdir kubeletTempDir ∨ e = Event.write kubeletTempCertPath ∨
        e = Event.write pathKubeconfigBootstrap ∨ (∃ p, e = Event.removeAll p) ∨
        (∃ p, e = Event.remove p) ∨ e = Event.restartUnit kubeletUnitName ∨
        e = Event.kubeletHealthWait := by
  intro e he
  unfold inPlaceMid at he
  split at he
  · simp only [Step.mem_events_bind] at he
    rcases he with he | ⟨a, -, he⟩
    · split at he
      · rcases rebootstrapKubelet_shape env e he with h | h | h | h | h | h <;> tauto
      · simp at he
    · split at he
      · rw [emitOp_mem he]; tauto
      · simp at he
  · simp at he

theorem inPlacePost_kinds (env : Env) (node : Option Node) (osc : OSC) (v : String) :
    ∀ e ∈ (inPlacePost env node osc v).events,
      e.kind ∈ [EvKind.listPodsK, EvKind.deletePodsK, EvKind.patchLabelOKK] := by
  intro e he
  unfold inPlacePost at he
  split at he
  · simp [Step.nilFault] at he
  · simp only [Step.mem_events_bind] at he
    rcases he with he | ⟨a, -, he | ⟨b, -, he⟩⟩
    · rw [emitOp_mem he]; simp [Event.kind]
    · rw [emitOp_mem he]; simp [Event.kind]
    · split at he
      · split at he
        · rw [emitOp_mem he]; simp [Event.kind]
        · simp at he
      · simp at he

theorem postApplyTail_kinds (env : Env) (node : Option Node) (checksum : String) :
    ∀ e ∈ (postApplyTail env node checksum).events,
      e.kind ∈ [EvKind.removeK, EvKind.recordEventK, EvKind.patchChecksumK] := by
  intro e he
  unfold postApplyTail at he
  split at he
  · simp at he
  · simp only [Step.mem_events_bind] at he
    rcases he with he | ⟨a, -, he | ⟨b, -, he | ⟨c, -, he⟩⟩⟩
    · rw [emitRemoveTolerant_mem he]; simp [Event.kind]
    · rw [emitRemoveTolerant_mem he]; simp [Event.kind]
    · rw [emitFree_mem he]; simp [Event.kind]
    · rcases he with he | ⟨d, -, he⟩
      · rw [emitOp_mem he]; simp [Event.kind]
      · simp at he

theorem applyPhase_kinds (env : Env) (ch : Changes) :
    ∀ e ∈ (applyPhase env ch).events, e.kind ∈ applyPhaseKinds := by
  intro e he
  unfold applyPhase at he
  simp only [Step.mem_events_bind] at he
  rcases he with he | ⟨a, -, he | ⟨b, -, he | ⟨c, -, he | ⟨d, -, he | ⟨x, -, he |
    ⟨y, -, he | ⟨z, -, he | ⟨w, -, he | ⟨v, -, he | ⟨t, -, he | ⟨r, -, he⟩⟩⟩⟩⟩⟩⟩⟩⟩⟩⟩
  · rw [emitFree_mem he]; simp [Event.kind, applyPhaseKinds]
  · rw [emitOp_mem he]; simp [Event.kind, applyPhaseKinds]
  · rw [emitFree_mem he]; simp [Event.kind, applyPhaseKinds]
  · have := applyChangedInlineFiles_kinds env _ e he
    simp [applyPhaseKinds] at this ⊢
    tauto
  · rw [emitFree_mem he]; simp [Event.kind, applyPhaseKinds]
  · rw [emitOp_mem he]; simp [Event.kind, applyPhaseKinds]
  · rw [emitFree_mem he]; simp [Event.kind, applyPhaseKinds]
  · have := applyChangedImageRefFiles_kinds env _ e he
    simp [applyPhaseKinds] at this ⊢
    tauto
  · rw [emitFree_mem he]; simp [Event.kind, applyPhaseKinds]
  · have := applyChangedUnits_kinds env _ e he
    simp [applyPhaseKinds, changedUnitKinds] at this ⊢
    tauto
  · rw [emitFree_mem he]; simp [Event.kind, applyPhaseKinds]
  · rcases removeDeletedUnits_shape env _ e he with ⟨u, -, h | h⟩ | ⟨p, h⟩ | ⟨p, h⟩ <;>
      subst h <;> simp [Event.kind, applyPhaseKinds]

/-- A stop before the daemon-reload can only address a deleted unit. -/
theorem applyPhase_stops (env : Env) (ch : Changes) :
    ∀ u, Event.stopUnit u ∈ (applyPhase env ch).events →
      u ∈ ch.units.deleted.map UnitSpec.name := by
  intro u he
  unfold applyPhase at he
  simp only [Step.mem_events_bind] at he
  rcases he with he | ⟨a, -, he | ⟨b, -, he | ⟨c, -, he | ⟨d, -, he | ⟨x, -, he |
    ⟨y, -, he | ⟨z, -, he | ⟨w, -, he | ⟨v, -, he | ⟨t, -, he | ⟨r, -, he⟩⟩⟩⟩⟩⟩⟩⟩⟩⟩⟩
  · exact absurd (emitFree_mem he) (by simp)
  · exact absurd (emitOp_mem he) (by simp)
  · exact absurd (emitFree_mem he) (by simp)
  · have := applyChangedInlineFiles_kinds env _ _ he
    simp [Event.kind] at this
  · exact absurd (emitFree_mem he) (by simp)
  · exact absurd (emitOp_mem he) (by simp)
  · exact absurd (emitFree_mem he) (by simp)
  · have := applyChangedImageRefFiles_kinds env _ _ he
    simp [Event.kind] at this
  · exact absurd (emitFree_mem he) (by simp)
  · have := applyChangedUnits_kinds env _ _ he
    simp [Event.kind, changedUnitKinds] at this
  · exact absurd (emitFree_mem he) (by simp)
  · rcases removeDeletedUnits_shape env _ _ he with ⟨v', hv', h | h⟩ | ⟨p, h⟩ | ⟨p, h⟩
    · simp at h
    · simp only [Event.stopUnit.injEq] at h
      subst h
      exact List.mem_map.mpr ⟨v', hv', rfl⟩
    · simp at h
    · simp at h

/- ### Stage ordering -/

theorem stageList_nil : stageList [] = [] := rfl

theorem stageList_append (a b : List Event) :
    stageList (a ++ b) = stageList a ++ stageList b := by
  simp [stageList]

theorem stageList_cons_stage (s : Stage) (tr : List Event) :
    stageList (Event.stage s :: tr) = s :: stageList tr := by
  simp [stageList]

theorem stageList_eq_nil {tr : List Event} (h : ∀ e ∈ tr, e.kind ≠ EvKind.stageK) :
    stageList tr = [] := by
  induction tr with
  | nil => rfl
  | cons e rest ih =>
      have he : e.kind ≠ EvKind.stageK := h e (by simp)
      have hrest : stageList rest = [] := ih (fun e' h' => h e' (by simp [h']))
      cases e <;> simp [stageList, Event.kind] at he ⊢ <;>
        simpa [stageList] using hrest

theorem stageList_of_kinds {tr : List Event} {ks : List EvKind}
    (hks : EvKind.stageK ∉ ks) (h : ∀ e ∈ tr, e.kind ∈ ks) : stageList tr = [] :=
  stageList_eq_nil (fun e he hk => hks (hk ▸ h e he))

theorem stageList_emitOp (env : Env) {ev : Event} (h : ev.kind ≠ EvKind.stageK) :
    stageList (emitOp env ev).events = [] :=
  stageList_eq_nil (fun e he => by rw [emitOp_mem he]; exact h)

/-- The stage markers of the apply phase form a prefix of the canonical
six-stage order, whatever succeeds or fails. -/
theorem applyPhase_stageList (env : Env) (ch : Changes) :
    ∃ rest, stageList (applyPhase env ch).events ++ rest = canonicalStages := by
  have h1 : stageList (emitOp env Event.reconcileContainerdConfig).events = [] :=
    stageList_emitOp env (by simp [Event.kind])
  have h2 : stageList (applyChangedInlineFiles env ch.files.changed).events = [] :=
    stageList_of_kinds (by decide) (applyChangedInlineFiles_kinds env _)
  have h3 : stageList (emitOp env Event.reconcileContainerdRegistries).events = [] :=
    stageList_emitOp env (by simp [Event.kind])
  have h4 : stageList (applyChangedImageRefFiles env ch.files.changed).events = [] :=
    stageList_of_kinds (by decide) (applyChangedImageRefFiles_kinds env _)
  have h5 : stageList (applyChangedUnits env ch.units.changed).events = [] :=
    stageList_of_kinds (by decide) (applyChangedUnits_kinds env _)
  have h6 : stageList (removeDeletedUnits env ch.units.deleted).events = [] :=
    stageList_eq_nil (fun e he => by
      rcases removeDeletedUnits_shape env _ e he with ⟨u, -, h | h⟩ | ⟨p, h⟩ | ⟨p, h⟩ <;>
        subst h <;> simp [Event.kind])
  unfold applyPhase
  simp only [Step.events_bind, Step.res_bind, Step.pure_events, Step.pure_res, emitFree]
  split
  · split
    · split
      · split
        · split
          · exact ⟨[], by
              simp [stageList_append, stageList_cons_stage, stageList_nil,
                h1, h2, h3, h4, h5, h6, canonicalStages]⟩
          · exact ⟨[Stage.deletedUnits], by
              simp [stageList_append, stageList_cons_stage, stageList_nil,
                h1, h2, h3, h4, h5, canonicalStages]⟩
        · exact ⟨[Stage.changedUnits, Stage.deletedUnits], by
            simp [stageList_append, stageList_cons_stage, stageList_nil,
              h1, h2, h3, h4, canonicalStages]⟩
      · exact ⟨[Stage.imageRefFiles, Stage.changedUnits, Stage.deletedUnits], by
          simp [stageList_append, stageList_cons_stage, stageList_nil,
            h1, h2, h3, canonicalStages]⟩
    · exact ⟨[Stage.containerdRegistries, Stage.imageRefFiles, Stage.changedUnits,
        Stage.deletedUnits], by
          simp [stageList_append, stageList_cons_stage, stageList_nil,
            h1, h2, canonicalStages]⟩
  · exact ⟨[Stage.inlineFiles, Stage.containerdRegistries, Stage.imageRefFiles,
      Stage.changedUnits, Stage.deletedUnits], by
        simp [stageList_append, stageList_cons_stage, stageList_nil,
          h1, canonicalStages]⟩

/-- When the apply phase succeeds, its stage markers are exactly the six
canonical stages. -/
theorem applyPhase_ok_stageList (env : Env) (ch : Changes)
    (h : (applyPhase env ch).res = Except.ok ()) :
    stageList (applyPhase env ch).events = canonicalStages := by
  have h1 : stageList (emitOp env Event.reconcileContainerdConfig).events = [] :=
    stageList_emitOp env (by simp [Event.kind])
  have h2 : stageList (applyChangedInlineFiles env ch.files.changed).events = [] :=
    stageList_of_kinds (by decide) (applyChangedInlineFiles_kinds env _)
  have h3 : stageList (emitOp env Event.reconcileContainerdRegistries).events = [] :=
    stageList_emitOp env (by simp [Event.kind])
  have h4 : stageList (applyChangedImageRefFiles env ch.files.changed).events = [] :=
    stageList_of_kinds (by decide) (applyChangedImageRefFiles_kinds env _)
  have h5 : stageList (applyChangedUnits env ch.units.changed).events = [] :=
    stageList_of_kinds (by decide) (applyChangedUnits_kinds env _)
  have h6 : stageList (removeDeletedUnits env ch.units.deleted).events = [] :=
    stageList_eq_nil (fun e he => by
      rcases removeDeletedUnits_shape env _ e he with ⟨u, -, hh | hh⟩ | ⟨p, hh⟩ | ⟨p, hh⟩ <;>
        subst hh <;> simp [Event.kind])
  unfold applyPhase at h ⊢
  simp only [Step.events_bind, Step.res_bind, Step.pure_events, Step.pure_res, emitFree] at h ⊢
  split at h
  · split at h
    · split at h
      · split at h
        · split at h
          · simp_all [stageList_append, stageList_cons_stage, stageList_nil, canonicalStages]
          · simp at h
        · simp at h
      · simp at h
    · simp at h
  · simp at h

/-- A stage marker is in the trace iff its stage is in the trace's stage
list. -/
theorem mem_stageList {s : Stage} {tr : List Event} :
    s ∈ stageList tr ↔ Event.stage s ∈ tr := by
  unfold stageList
  rw [List.mem_filterMap]
  constructor
  · rintro ⟨e, he, hs⟩
    cases e <;> simp at hs
    subst hs
    exact he
  · intro h
    exact ⟨Event.stage s, h, rfl⟩

/- ### Progress through the post-apply chain -/

theorem emitOp_mem_ok {env : Env} {ev e : Event} (h : e ∈ (emitOp env ev).events) :
    e = ev ∧ (emitOp env ev).res = Except.ok () := by
  unfold emitOp at h ⊢
  cases henv : env.ops ev <;> rw [henv] at h <;> simp [Step.fail] at h <;> simp [h]

theorem emitRemoveTolerant_mem_ok {env : Env} {ev e : Event}
    (h : e ∈ (emitRemoveTolerant env ev).events) :
    e = ev ∧ (emitRemoveTolerant env ev).res = Except.ok () := by
  unfold emitRemoveTolerant at h ⊢
  cases henv : env.ops ev <;> rw [henv] at h <;> simp [Step.fail, pure] at h <;> simp [h]

theorem postRestEvent_of_kind (ks : List EvKind) {e : Event} (h : e.kind ∈ ks)
    (h1 : EvKind.daemonReloadK ∉ ks) (h2 : EvKind.stageK ∉ ks)
    (h3 : EvKind.writeK ∉ ks) : PostRestEvent e := by
  refine ⟨fun hk => h1 (hk ▸ h), fun hk => h2 (hk ▸ h), fun p hp => ?_⟩
  rw [hp] at h
  exact absurd h h3

theorem postApplyRest_shape (env : Env) (node : Option Node) (osc : OSC)
    (v : String) (ch : Changes) (cs : String) :
    ∀ e ∈ (postApplyRest env node osc v ch cs).events, PostRestEvent e := by
  intro e he
  unfold postApplyRest at he
  simp only [Step.mem_events_bind] at he
  rcases he with he | ⟨a, -, he | ⟨b, hb, he | ⟨c, -, he | ⟨d, -, he | ⟨x, -, he |
    ⟨y, -, he | ⟨z, -, he⟩⟩⟩⟩⟩⟩⟩
  · rw [(emitOp_mem_ok he).1]
    exact postRestEvent_of_kind [EvKind.startK] (by simp [Event.kind])
      (by decide) (by decide) (by decide)
  · exact postRestEvent_of_kind _ (executeUnitCommands_kinds e he)
      (by decide) (by decide) (by decide)
  · rcases inPlaceMid_shape env ch e he with h | h | h | ⟨p, h⟩ | ⟨p, h⟩ | h | h <;> subst h
    · exact postRestEvent_of_kind [EvKind.mkdirK] (by simp [Event.kind])
        (by decide) (by decide) (by decide)
    · exact ⟨by simp [Event.kind], by simp [Event.kind], fun p hp => by
        simp at hp; subst hp; tauto⟩
    · exact ⟨by simp [Event.kind], by simp [Event.kind], fun p hp => by
        simp at hp; subst hp; tauto⟩
    · exact postRestEvent_of_kind [EvKind.removeAllK] (by simp [Event.kind])
        (by decide) (by decide) (by decide)
    · exact postRestEvent_of_kind [EvKind.removeK] (by simp [Event.kind])
        (by decide) (by decide) (by decide)
    · exact postRestEvent_of_kind [EvKind.restartK] (by simp [Event.kind])
        (by decide) (by decide) (by decide)
    · exact postRestEvent_of_kind [EvKind.kubeletHealthK] (by simp [Event.kind])
        (by decide) (by decide) (by decide)
  · rw [(emitOp_mem_ok he).1]
    exact postRestEvent_of_kind [EvKind.waitRegistriesK] (by simp [Event.kind])
      (by decide) (by decide) (by decide)
  · exact postRestEvent_of_kind _ (removeDeletedFiles_kinds env _ e he)
      (by decide) (by decide) (by decide)
  · split at he
    · exact postRestEvent_of_kind _ (inPlacePost_kinds env _ _ _ e he)
        (by decide) (by decide) (by decide)
    · simp at he
  · rw [(emitOp_mem_ok he).1]
    exact ⟨by simp [Event.kind], by simp [Event.kind], fun p hp => by
      simp at hp; subst hp; tauto⟩
  · split at he
    · simp only [Step.mem_events_bind] at he
      rcases he with he | ⟨w, -, he⟩
      · rw [emitFree_mem he]
        exact postRestEvent_of_kind [EvKind.cancelK] (by simp [Event.kind])
          (by decide) (by decide) (by decide)
      · simp at he
    · exact postRestEvent_of_kind _ (postApplyTail_kinds env _ _ e he)
        (by decide) (by decide) (by decide)

theorem emitOp_ok_events {env : Env} {ev : Event}
    (h : (emitOp env ev).res = Except.ok ()) : (emitOp env ev).events = [ev] := by
  unfold emitOp at h ⊢
  cases henv : env.ops ev
  · rfl
  · rw [henv] at h
    simp [Step.fail] at h
  · rw [henv] at h
    simp [Step.fail] at h

/-- A successful checksum patch implies the whole tail succeeded with the
sync-period requeue. -/
theorem postApplyTail_patch {env : Env} {node : Option Node} {cs c : String}
    (h : Event.patchNodeChecksum c ∈ (postApplyTail env node cs).events) :
    (postApplyTail env node cs).res = Except.ok (some env.syncPeriod) := by
  unfold postApplyTail at h ⊢
  cases node
  · simp at h
  · simp only [Step.mem_events_bind] at h
    rcases h with h | ⟨a, ha, h | ⟨b, hb, h | ⟨c', hc, h⟩⟩⟩
    · exact absurd (emitRemoveTolerant_mem h) (by simp)
    · exact absurd (emitRemoveTolerant_mem h) (by simp)
    · exact absurd (emitFree_mem h) (by simp)
    · rcases h with h | ⟨d, hd, h⟩
      · simp [Step.res_bind, ha, hb, hc, (emitOp_mem_ok h).2, emitFree]
      · simp at h

/-- No event of the chain before the baseline write can be the checksum
patch; reaching the patch therefore implies everything up to and including
the baseline write succeeded. -/
theorem postApplyRest_patch {env : Env} {node : Option Node} {osc : OSC}
    {v : String} {ch : Changes} {cs c : String}
    (h : Event.patchNodeChecksum c ∈ (postApplyRest env node osc v ch cs).events) :
    (postApplyRest env node osc v ch cs).res = Except.ok (some env.syncPeriod) ∧
      Event.write lastAppliedOSCPath ∈ (postApplyRest env node osc v ch cs).events := by
  unfold postApplyRest at h ⊢
  simp only [Step.mem_events_bind] at h
  rcases h with h | ⟨a, ha, h | ⟨b, hb, h | ⟨c', hc, h | ⟨d, hd, h | ⟨x, hx, h |
    ⟨y, hy, h | ⟨z, hz, h⟩⟩⟩⟩⟩⟩⟩
  · exact absurd (emitOp_mem h).symm (by simp)
  · have := executeUnitCommands_kinds _ h
    simp [Event.kind] at this
  · rcases inPlaceMid_shape env ch _ h with hh | hh | hh | ⟨p, hh⟩ | ⟨p, hh⟩ | hh | hh <;>
      simp at hh
  · exact absurd (emitOp_mem h).symm (by simp)
  · have := removeDeletedFiles_kinds env _ _ h
    simp [Event.kind] at this
  · split at h
    · have := inPlacePost_kinds env _ _ _ _ h
      simp [Event.kind] at this
    · simp at h
  · exact absurd (emitOp_mem h).symm (by simp)
  · constructor
    · simp only [Step.res_bind, ha, hb, hc, hd, hx, hy, hz]
      split at h
      · simp only [Step.mem_events_bind] at h
        rcases h with h | ⟨w, -, h⟩
        · exact absurd (emitFree_mem h) (by simp)
        · simp at h
      · split
        · simp_all
        · exact postApplyTail_patch h
    · simp only [Step.mem_events_bind]
      refine Or.inr ⟨a, ha, Or.inr ⟨b, hb, Or.inr ⟨c', hc, Or.inr ⟨d, hd, Or.inr
        ⟨x, hx, Or.inr ⟨y, hy, Or.inl ?_⟩⟩⟩⟩⟩⟩
      rw [emitOp_ok_events hz]
      simp

/-- A context cancellation can only happen as the very last event, right
after a successful baseline write. -/
theorem postApplyRest_cancel {env : Env} {node : Option Node} {osc : OSC}
    {v : String} {ch : Changes} {cs : String}
    (h : Event.cancelContext ∈ (postApplyRest env node osc v ch cs).events) :
    ∃ Q, (postApplyRest env node osc v ch cs).events =
        Q ++ [Event.write lastAppliedOSCPath, Event.cancelContext] ∧
      Event.cancelContext ∉ Q ∧
      (postApplyRest env node osc v ch cs).res = Except.ok none := by
  have hshape := postApplyRest_shape env node osc v ch cs
  unfold postApplyRest at h ⊢
  simp only [Step.mem_events_bind] at h
  rcases h with h | ⟨a, ha, h | ⟨b, hb, h | ⟨c', hc, h | ⟨d, hd, h | ⟨x, hx, h |
    ⟨y, hy, h | ⟨z, hz, h⟩⟩⟩⟩⟩⟩⟩
  · exact absurd (emitOp_mem h).symm (by simp)
  · have := executeUnitCommands_kinds _ h
    simp [Event.kind] at this
  · rcases inPlaceMid_shape env ch _ h with hh | hh | hh | ⟨p, hh⟩ | ⟨p, hh⟩ | hh | hh <;>
      simp at hh
  · exact absurd (emitOp_mem h).symm (by simp)
  · have := removeDeletedFiles_kinds env _ _ h
    simp [Event.kind] at this
  · split at h
    · have := inPlacePost_kinds env _ _ _ _ h
      simp [Event.kind] at this
    · simp at h
  · exact absurd (emitOp_mem h).symm (by simp)
  · split at h
    case isFalse =>
      have := postApplyTail_kinds env node cs _ h
      simp [Event.kind] at this
    case isTrue hbt =>
      refine ⟨(emitOp env (Event.startUnit containerdUnitName)).events ++
        ((executeUnitCommands env ch).events ++ ((inPlaceMid env ch).events ++
        ((emitOp env Event.waitForRegistries).events ++
        ((removeDeletedFiles env ch.files.deleted).events ++
        ((if isInPlaceUpdate ch then inPlacePost env node osc v else pure ()).events))))), ?_, ?_, ?_⟩
      · simp only [Step.events_bind, Step.res_bind, ha, hb, hc, hd, hx, hy, hz, hbt,
          if_true, emitFree, emitOp_ok_events hz]
        simp
      · intro hmem
        simp only [List.mem_append] at hmem
        rcases hmem with hm | hm | hm | hm | hm | hm
        · exact absurd (emitOp_mem hm).symm (by simp)
        · have := executeUnitCommands_kinds _ hm
          simp [Event.kind] at this
        · rcases inPlaceMid_shape env ch _ hm with hh | hh | hh | ⟨p, hh⟩ | ⟨p, hh⟩ | hh | hh <;>
            simp at hh
        · exact absurd (emitOp_mem hm).symm (by simp)
        · have := removeDeletedFiles_kinds env _ _ hm
          simp [Event.kind] at this
        · split at hm
          · have := inPlacePost_kinds env _ _ _ _ hm
            simp [Event.kind] at this
          · simp at hm
      · simp only [Step.res_bind, ha, hb, hc, hd, hx, hy, hz, hbt, if_true, emitFree]
        simp

/-- Reaching the baseline write implies the registry wait already happened. -/
theorem postApplyRest_write_baseline {env : Env} {node : Option Node} {osc : OSC}
    {v : String} {ch : Changes} {cs : String}
    (h : Event.write lastAppliedOSCPath ∈ (postApplyRest env node osc v ch cs).events) :
    Event.waitForRegistries ∈ (postApplyRest env node osc v ch cs).events := by
  unfold postApplyRest at h ⊢
  simp only [Step.mem_events_bind] at h ⊢
  rcases h with h | ⟨a, ha, h | ⟨b, hb, h | ⟨c', hc, h | ⟨d, hd, h | ⟨x, hx, h |
    ⟨y, hy, h | ⟨z, hz, h⟩⟩⟩⟩⟩⟩⟩
  · exact absurd (emitOp_mem h).symm (by simp)
  · have := executeUnitCommands_kinds _ h
    simp [Event.kind] at this
  · rcases inPlaceMid_shape env ch _ h with hh | hh | hh | ⟨p, hh⟩ | ⟨p, hh⟩ | hh | hh <;>
      simp [kubeletTempCertPath, kubeletTempDir, pathKubeletDirectory,
        pathKubeconfigBootstrap, lastAppliedOSCPath] at hh
  · refine Or.inr ⟨a, ha, Or.inr ⟨b, hb, Or.inr ⟨c', hc, Or.inl ?_⟩⟩⟩
    rw [(emitOp_mem_ok h).1] at h
    exact h
  · have := removeDeletedFiles_kinds env _ _ h
    simp [Event.kind] at this
  · split at h
    · have := inPlacePost_kinds env _ _ _ _ h
      simp [Event.kind] at this
    · simp at h
  · refine Or.inr ⟨a, ha, Or.inr ⟨b, hb, Or.inr ⟨c', hc, Or.inl ?_⟩⟩⟩
    rw [emitOp_ok_events hd]
    simp
  · refine Or.inr ⟨a, ha, Or.inr ⟨b, hb, Or.inr ⟨c', hc, Or.inl ?_⟩⟩⟩
    rw [emitOp_ok_events hd]
    simp

/- ### Lifting to `postApply` and `mainPass` -/

theorem postApply_mem {env : Env} {node : Option Node} {osc : OSC} {v : String}
    {ch : Changes} {cs : String} {e : Event}
    (h : e ∈ (postApply env node osc v ch cs).events) :
    e = Event.daemonReload ∨ PostRestEvent e := by
  unfold postApply at h
  simp only [Step.mem_events_bind] at h
  rcases h with h | ⟨a, -, h⟩
  · exact Or.inl (emitOp_mem h)
  · exact Or.inr (postApplyRest_shape env node osc v ch cs e h)

theorem stageList_postApply (env : Env) (node : Option Node) (osc : OSC)
    (v : String) (ch : Changes) (cs : String) :
    stageList (postApply env node osc v ch cs).events = [] := by
  refine stageList_eq_nil (fun e he => ?_)
  rcases postApply_mem he with h | h
  · subst h; simp [Event.kind]
  · exact h.2.1

theorem postApply_reload_decomp {env : Env} {node : Option Node} {osc : OSC}
    {v : String} {ch : Changes} {cs : String}
    (h : Event.daemonReload ∈ (postApply env node osc v ch cs).events) :
    ∃ B, (postApply env node osc v ch cs).events = Event.daemonReload :: B ∧
      Event.daemonReload ∉ B ∧
      (∀ p, Event.write p ∈ B → p = kubeletTempCertPath ∨
        p = pathKubeconfigBootstrap ∨ p = lastAppliedOSCPath) := by
  rcases emitOp_cases env Event.daemonReload with hc | hc
  · refine ⟨(postApplyRest env node osc v ch cs).events, ?_, ?_, ?_⟩
    · unfold postApply
      simp [Step.events_bind, hc]
    · intro hmem
      exact (postApplyRest_shape env node osc v ch cs _ hmem).1 rfl
    · intro p hp
      exact (postApplyRest_shape env node osc v ch cs _ hp).2.2 p rfl
  · exfalso
    unfold postApply at h
    simp [Step.events_bind, hc, Step.fail] at h

theorem postApply_patch {env : Env} {node : Option Node} {osc : OSC} {v : String}
    {ch : Changes} {cs c : String}
    (h : Event.patchNodeChecksum c ∈ (postApply env node osc v ch cs).events) :
    (postApply env node osc v ch cs).res = Except.ok (some env.syncPeriod) ∧
      Event.write lastAppliedOSCPath ∈ (postApply env node osc v ch cs).events := by
  unfold postApply at h ⊢
  simp only [Step.mem_events_bind] at h ⊢
  rcases h with h | ⟨a, ha, h⟩
  · exact absurd (emitOp_mem h).symm (by simp)
  · obtain ⟨hres, hw⟩ := postApplyRest_patch h
    constructor
    · simp only [Step.res_bind, ha]
      exact hres
    · exact Or.inr ⟨a, ha, hw⟩

theorem postApply_cancel {env : Env} {node : Option Node} {osc : OSC} {v : String}
    {ch : Changes} {cs : String}
    (h : Event.cancelContext ∈ (postApply env node osc v ch cs).events) :
    ∃ Q, (postApply env node osc v ch cs).events =
        Q ++ [Event.write lastAppliedOSCPath, Event.cancelContext] ∧
      Event.cancelContext ∉ Q ∧
      (postApply env node osc v ch cs).res = Except.ok none := by
  unfold postApply at h ⊢
  simp only [Step.mem_events_bind] at h
  rcases h with h | ⟨a, ha, h⟩
  · exact absurd (emitOp_mem h).symm (by simp)
  · rcases postApplyRest_cancel h with ⟨Q, hQ, hnot, hres⟩
    refine ⟨(emitOp env Event.daemonReload).events ++ Q, ?_, ?_, ?_⟩
    · simp [Step.events_bind, ha, hQ]
    · intro hm
      simp only [List.mem_append] at hm
      rcases hm with hm | hm
      · exact absurd (emitOp_mem hm).symm (by simp)
      · exact hnot hm
    · simp only [Step.res_bind, ha]
      exact hres

theorem postApply_write_baseline {env : Env} {node : Option Node} {osc : OSC}
    {v : String} {ch : Changes} {cs : String}
    (h : Event.write lastAppliedOSCPath ∈ (postApply env node osc v ch cs).events) :
    Event.daemonReload ∈ (postApply env node osc v ch cs).events ∧
      Event.waitForRegistries ∈ (postApply env node osc v ch cs).events := by
  unfold postApply at h ⊢
  simp only [Step.mem_events_bind] at h ⊢
  rcases h with h | ⟨a, ha, h⟩
  · exact absurd (emitOp_mem h).symm (by simp)
  · constructor
    · left
      rw [emitOp_ok_events ha]
      simp
    · exact Or.inr ⟨a, ha, postApplyRest_write_baseline h⟩

/-- Stage markers of the whole pass form a prefix of the canonical order. -/
theorem mainPass_stageList (env : Env) (node : Option Node) (osc : OSC)
    (cs v : String) (ch : Changes) :
    ∃ rest, stageList (mainPass env node osc cs v ch).events ++ rest = canonicalStages := by
  have hg : stageList (inPlaceGate env node osc ch).events = [] :=
    stageList_of_kinds (by decide) (inPlaceGate_kinds env node osc ch)
  unfold mainPass
  simp only [Step.events_bind]
  rcases hgr : (inPlaceGate env node osc ch).res with f | g
  · exact ⟨canonicalStages, by simp [stageList_append, hg]⟩
  · cases g
    case some r => exact ⟨canonicalStages, by simp [stageList_append, hg, stageList_nil]⟩
    case none =>
      simp only [Step.events_bind]
      rcases har : (applyPhase env ch).res with f2 | u2
      · obtain ⟨rest, hrest⟩ := applyPhase_stageList env ch
        exact ⟨rest, by simp [stageList_append, hg, hrest]⟩
      · obtain ⟨rest, hrest⟩ := applyPhase_stageList env ch
        exact ⟨rest, by
          simp [stageList_append, hg, stageList_postApply, hrest]⟩

theorem mainPass_patch {env : Env} {node : Option Node} {osc : OSC}
    {cs v : String} {ch : Changes} {c : String}
    (h : Event.patchNodeChecksum c ∈ (mainPass env node osc cs v ch).events) :
    (mainPass env node osc cs v ch).res = Except.ok (some env.syncPeriod) ∧
      Event.write lastAppliedOSCPath ∈ (mainPass env node osc cs v ch).events := by
  unfold mainPass at h ⊢
  simp only [Step.mem_events_bind] at h ⊢
  rcases h with h | ⟨g, hg, h⟩
  · have := inPlaceGate_kinds env node osc ch _ h
    simp [Event.kind] at this
  · cases g
    case some r => simp at h
    case none =>
      simp only [Step.mem_events_bind] at h
      rcases h with h | ⟨u, hu, h⟩
      · have := applyPhase_kinds env ch _ h
        simp [Event.kind, applyPhaseKinds] at this
      · obtain ⟨hres, hw⟩ := postApply_patch h
        constructor
        · simp only [Step.res_bind, hg, hu, hres]
        · refine Or.inr ⟨none, hg, ?_⟩
          simp only [Step.mem_events_bind]
          exact Or.inr ⟨u, hu, hw⟩

theorem mainPass_cancel {env : Env} {node : Option Node} {osc : OSC}
    {cs v : String} {ch : Changes}
    (h : Event.cancelContext ∈ (mainPass env node osc cs v ch).events) :
    ∃ Q, (mainPass env node osc cs v ch).events =
        Q ++ [Event.write lastAppliedOSCPath, Event.cancelContext] ∧
      Event.cancelContext ∉ Q ∧
      (mainPass env node osc cs v ch).res = Except.ok none := by
  unfold mainPass at h ⊢
  simp only [Step.mem_events_bind] at h
  rcases h with h | ⟨g, hg, h⟩
  · have := inPlaceGate_kinds env node osc ch _ h
    simp [Event.kind] at this
  · cases g
    case some r => simp at h
    case none =>
      simp only [Step.mem_events_bind] at h
      rcases h with h | ⟨u, hu, h⟩
      · have := applyPhase_kinds env ch _ h
        simp [Event.kind, applyPhaseKinds] at this
      · rcases postApply_cancel h with ⟨Q, hQ, hnot, hres⟩
        refine ⟨(inPlaceGate env node osc ch).events ++ ((applyPhase env ch).events ++ Q),
          ?_, ?_, ?_⟩
        · simp only [Step.events_bind, hg, hu, hQ]
          simp
        · intro hm
          simp only [List.mem_append] at hm
          rcases hm with hm | hm | hm
          · have := inPlaceGate_kinds env node osc ch _ hm
            simp [Event.kind] at this
          · have := applyPhase_kinds env ch _ hm
            simp [Event.kind, applyPhaseKinds] at this
          · exact hnot hm
        · simp only [Step.res_bind, hg, hu]
          exact hres

theorem mainPass_write_baseline {env : Env} {node : Option Node} {osc : OSC}
    {cs v : String} {ch : Changes}
    (hnot : Event.write lastAppliedOSCPath ∉ (applyPhase env ch).events)
    (h : Event.write lastAppliedOSCPath ∈ (mainPass env node osc cs v ch).events) :
    (∀ s, Event.stage s ∈ (mainPass env node osc cs v ch).events) ∧
      Event.daemonReload ∈ (mainPass env node osc cs v ch).events ∧
      Event.waitForRegistries ∈ (mainPass env node osc cs v ch).events := by
  unfold mainPass at h ⊢
  simp only [Step.mem_events_bind] at h
  rcases h with h | ⟨g, hg, h⟩
  · have := inPlaceGate_kinds env node osc ch _ h
    simp [Event.kind] at this
  · cases g
    case some r => simp at h
    case none =>
      simp only [Step.mem_events_bind] at h
      rcases h with h | ⟨u, hu, h⟩
      · exact absurd h hnot
      · obtain ⟨hreload, hwait⟩ := postApply_write_baseline h
        have hstages : ∀ s, Event.stage s ∈ (applyPhase env ch).events := by
          intro s
          have hok : (applyPhase env ch).res = Except.ok () := by
            cases u; exact hu
          have hcanon := applyPhase_ok_stageList env ch hok
          have : s ∈ stageList (applyPhase env ch).events := by
            rw [hcanon]
            cases s <;> simp [canonicalStages]
          exact mem_stageList.mp this
        refine ⟨?_, ?_, ?_⟩
        · intro s
          simp only [Step.mem_events_bind]
          refine Or.inr ⟨none, hg, ?_⟩
          simp only [Step.mem_events_bind]
          exact Or.inl (hstages s)
        · simp only [Step.mem_events_bind]
          refine Or.inr ⟨none, hg, ?_⟩
          simp only [Step.mem_events_bind]
          exact Or.inr ⟨u, hu, hreload⟩
        · simp only [Step.mem_events_bind]
          refine Or.inr ⟨none, hg, ?_⟩
          simp only [Step.mem_events_bind]
          exact Or.inr ⟨u, hu, hwait⟩

theorem mainPass_reload_decomp {env : Env} {node : Option Node} {osc : OSC}
    {cs v : String} {ch : Changes}
    (h : Event.daemonReload ∈ (mainPass env node osc cs v ch).events) :
    ∃ A B, (mainPass env node osc cs v ch).events = A ++ Event.daemonReload :: B ∧
      Event.daemonReload ∉ A ∧ Event.daemonReload ∉ B ∧
      (∀ u, Event.restartUnit u ∉ A) ∧ (∀ u, Event.startUnit u ∉ A) ∧
      (∀ u, Event.stopUnit u ∈ A → u ∈ ch.units.deleted.map UnitSpec.name) ∧
      (∀ p, Event.write p ∈ B → p = kubeletTempCertPath ∨
        p = pathKubeconfigBootstrap ∨ p = lastAppliedOSCPath) := by
  unfold mainPass at h ⊢
  simp only [Step.mem_events_bind] at h
  rcases h with h | ⟨g, hg, h⟩
  · have := inPlaceGate_kinds env node osc ch _ h
    simp [Event.kind] at this
  · cases g
    case some r => simp at h
    case none =>
      simp only [Step.mem_events_bind] at h
      rcases h with h | ⟨u, hu, h⟩
      · have := applyPhase_kinds env ch _ h
        simp [Event.kind, applyPhaseKinds] at this
      · rcases postApply_reload_decomp h with ⟨B, hB, hnotB, hwr⟩
        refine ⟨(inPlaceGate env node osc ch).events ++ (applyPhase env ch).events, B,
          ?_, ?_, hnotB, ?_, ?_, ?_, hwr⟩
        · simp only [Step.events_bind, hg, hu, hB]
          simp
        · intro hm
          simp only [List.mem_append] at hm
          rcases hm with hm | hm
          · have := inPlaceGate_kinds env node osc ch _ hm
            simp [Event.kind] at this
          · have := applyPhase_kinds env ch _ hm
            simp [Event.kind, applyPhaseKinds] at this
        · intro w hm
          simp only [List.mem_append] at hm
          rcases hm with hm | hm
          · have := inPlaceGate_kinds env node osc ch _ hm
            simp [Event.kind] at this
          · have := applyPhase_kinds env ch _ hm
            simp [Event.kind, applyPhaseKinds] at this
        · intro w hm
          simp only [List.mem_append] at hm
          rcases hm with hm | hm
          · have := inPlaceGate_kinds env node osc ch _ hm
            simp [Event.kind] at this
          · have := applyPhase_kinds env ch _ hm
            simp [Event.kind, applyPhaseKinds] at this
        · intro w hm
          simp only [List.mem_append] at hm
          rcases hm with hm | hm
          · have := inPlaceGate_kinds env node osc ch _ hm
            simp [Event.kind] at this
          · exact applyPhase_stops env ch w hm

/- ### Reconcile-level glue -/

theorem runPass_events (s : Step (Option Nat)) : (runPass s).1 = s.events := by
  unfold runPass
  rcases s with ⟨tr, r⟩
  rcases r with f | v
  · cases f <;> rfl
  · rfl

theorem runPass_outcome_ok {s : Step (Option Nat)} {v : Option Nat}
    (h : s.res = Except.ok v) : (runPass s).2 = Outcome.ok v := by
  unfold runPass
  rw [h]

/-- In the main branch, `reconcile` is exactly the main pass. -/
theorem reconcile_eq_mainPass {env : Env} {node : Option Node} {osc : OSC}
    {cs vs : String} {ch : Changes}
    (hsec : env.secretGet = SecretRes.found)
    (hnode : env.getNode = Res.ok node)
    (hosc : env.extractOSC = Res.ok (osc, cs))
    (hver : env.getOSVersion = Res.ok vs)
    (hch : env.computeChanges = Res.ok ch)
    (hfast : nodeChecksumMatches node cs = false) :
    reconcile env = runPass (mainPass env node osc cs vs ch) := by
  unfold reconcile
  rw [hsec, hnode, hosc, hver, hch]
  simp [hfast]

/-- If the trace of a pass is nonempty, the pass took the main branch. -/
theorem reconcile_trace_cases (env : Env) :
    (reconcile env).1 = [] ∨
      ∃ node osc cs vs ch, env.secretGet = SecretRes.found ∧
        env.getNode = Res.ok node ∧ env.extractOSC = Res.ok (osc, cs) ∧
        env.getOSVersion = Res.ok vs ∧ env.computeChanges = Res.ok ch ∧
        nodeChecksumMatches node cs = false ∧
        reconcile env = runPass (mainPass env node osc cs vs ch) := by
  unfold reconcile
  cases hsec : env.secretGet
  case notFound => exact Or.inl rfl
  case err => exact Or.inl rfl
  case found =>
    cases hnode : env.getNode
    case err => exact Or.inl rfl
    case ok node =>
      cases hosc : env.extractOSC
      case err => exact Or.inl rfl
      case ok oscCs =>
        obtain ⟨osc0, cs0⟩ := oscCs
        cases hver : env.getOSVersion
        case err => exact Or.inl rfl
        case ok vs =>
          cases hch : env.computeChanges
          case err => exact Or.inl rfl
          case ok ch =>
            cases hfast : nodeChecksumMatches node cs0
            case true => simp [hfast]
            case false =>
              refine Or.inr ⟨node, osc0, cs0, vs, ch, rfl, rfl, rfl, rfl, rfl,
                hfast, ?_⟩
              simp [hfast]

/-- A list ending in `[w, c]`, with `c` nowhere else, splits at `c` only by
cutting off exactly that tail. -/
theorem single_tail_decomp {α : Type} [DecidableEq α] {w c : α} (hcw : c ≠ w) :
    ∀ {P l₁ l₂ : List α}, c ∉ P → P ++ [w, c] = l₁ ++ c :: l₂ →
      l₁ = P ++ [w] ∧ l₂ = [] := by
  intro P
  induction P with
  | nil =>
      intro l₁ l₂ _ heq
      cases l₁ with
      | nil =>
          simp at heq
          exact absurd heq.1.symm hcw
      | cons a l₁' =>
          cases l₁' with
          | nil => simp_all
          | cons b l₁'' => simp_all
  | cons p P' ih =>
      intro l₁ l₂ hcP heq
      cases l₁ with
      | nil =>
          simp at heq
          exact absurd heq.1 (fun hpc => hcP (by simp [hpc]))
      | cons a l₁' =>
          simp only [List.cons_append, List.cons.injEq] at heq
          obtain ⟨hap, heq'⟩ := heq
          have hcP' : c ∉ P' := fun hm => hcP (by simp [hm])
          obtain ⟨hl, hr⟩ := ih hcP' heq'
          subst hap hl hr
          simp

/- ## Claim theorems -/

/-- C2: Within every reconciliation pass that reaches the apply phase, the
applier stages execute in the literal order containerd configuration, changed
inline files, containerd registries, changed image-ref files, changed units,
deleted units; each later stage runs only if all earlier stages returned
without error.  Formally: the stage markers of any pass's trace form a prefix
of the canonical six-stage sequence, for every environment (so a later stage's
marker can only appear after all earlier ones, and an aborted pass cuts the
sequence short). -/
theorem C2_applier_stage_order (env : Env) :
    ∃ rest, stageList (reconcile env).1 ++ rest = canonicalStages := by
  rcases reconcile_trace_cases env with h | ⟨node, osc, cs, vs, ch, -, -, -, -, -, -, heq⟩
  · rw [h]
    exact ⟨canonicalStages, rfl⟩
  · rw [heq, runPass_events]
    exact mainPass_stageList env node osc cs vs ch

/-- C3: If the Node exists and its applied-configuration checksum annotation
equals the desired configuration's checksum (Go's missing-map-key reads as
`""`), `Reconcile` returns success immediately and its trace is empty: no
filesystem mutation and no systemd operation is performed. -/
theorem C3_fast_path_noop (env : Env) (n : Node) (osc : OSC) (cs vs : String)
    (ch : Changes)
    (hsec : env.secretGet = SecretRes.found)
    (hnode : env.getNode = Res.ok (some n))
    (hosc : env.extractOSC = Res.ok (osc, cs))
    (hver : env.getOSVersion = Res.ok vs)
    (hch : env.computeChanges = Res.ok ch)
    (hann : (lookupKV n.annotations annotationKeyChecksumAppliedOSC).getD "" = cs) :
    reconcile env = ([], Outcome.ok none) := by
  unfold reconcile
  rw [hsec, hnode, hosc, hver, hch]
  simp [nodeChecksumMatches, hann]

theorem C3_fast_path_noop_witness : reconcile envC3 = ([], Outcome.ok none) :=
  C3_fast_path_noop envC3 ⟨"node-1", [(annotationKeyChecksumAppliedOSC, "abc")], []⟩
    ⟨none, none⟩ "abc" "1.0" emptyChanges rfl rfl rfl rfl rfl (by decide)

/-- C8: If the change-set implies an in-place update (OS-version change,
kubelet minor-version or config change, CA rotation, or service-account-key
rotation — exactly `isInPlaceUpdate`) and the registered node does not carry
the ready-for-update label, `Reconcile` requeues after 5 seconds without error
and with an empty trace: no file or unit mutation is performed. -/
theorem C8_inplace_gate_requeue (env : Env) (n : Node) (osc : OSC) (cs vs : String)
    (ch : Changes)
    (hsec : env.secretGet = SecretRes.found)
    (hnode : env.getNode = Res.ok (some n))
    (hosc : env.extractOSC = Res.ok (osc, cs))
    (hver : env.getOSVersion = Res.ok vs)
    (hch : env.computeChanges = Res.ok ch)
    (hann : ¬((lookupKV n.annotations annotationKeyChecksumAppliedOSC).getD "" = cs))
    (hip : isInPlaceUpdate ch = true)
    (hlabel : lookupKV n.labels labelKeyMachineIsReadyForUpdate = none) :
    reconcile env = ([], Outcome.ok (some 5)) := by
  unfold reconcile
  rw [hsec, hnode, hosc, hver, hch]
  simp only [nodeChecksumMatches]
  rw [if_neg (by simp [hann])]
  unfold mainPass inPlaceGate
  simp [hip, hlabel, runPass]

theorem C8_inplace_gate_requeue_witness : reconcile envC8 = ([], Outcome.ok (some 5)) :=
  C8_inplace_gate_requeue envC8 nodeBase ⟨none, none⟩ "abc" "1.0" caRotationChanges
    rfl rfl rfl rfl rfl (by decide) (by decide) rfl

/-- C10: If the node lookup found no Node object (`nil` node, which
`Reconcile` otherwise tolerates by requeuing at the end of the pass) and the
change-set implies an in-place update, the ready-for-update label check
dereferences the nil Node: the pass faults instead of requeuing. -/
theorem C10_nil_node_inplace_fault (env : Env) (osc : OSC) (cs vs : String)
    (ch : Changes)
    (hsec : env.secretGet = SecretRes.found)
    (hnode : env.getNode = Res.ok none)
    (hosc : env.extractOSC = Res.ok (osc, cs))
    (hver : env.getOSVersion = Res.ok vs)
    (hch : env.computeChanges = Res.ok ch)
    (hip : isInPlaceUpdate ch = true) :
    reconcile env = ([], Outcome.fault) := by
  unfold reconcile
  rw [hsec, hnode, hosc, hver, hch]
  simp only [nodeChecksumMatches]
  rw [if_neg (by simp)]
  unfold mainPass inPlaceGate
  simp [hip, runPass, Step.nilFault]

theorem C10_nil_node_inplace_fault_witness : reconcile envC10 = ([], Outcome.fault) :=
  C10_nil_node_inplace_fault envC10 ⟨none, none⟩ "abc" "1.0" caRotationChanges
    rfl rfl rfl rfl rfl (by decide)

/-- C6: For every changed unit whose application succeeds, the unit is enabled
iff it is the node-agent's own unit or its `Enable` flag is true or unset
(default true), and disabled otherwise — exactly the condition of line 486. -/
theorem C6_enable_iff (env : Env) (u : ChangedUnit)
    (h : (applyChangedUnit env u).res = Except.ok ()) :
    (Event.enable u.name ∈ (applyChangedUnit env u).events ↔
      (u.name = gnaUnitName ∨ u.enable.getD true = true)) ∧
    (Event.disable u.name ∈ (applyChangedUnit env u).events ↔
      ¬(u.name = gnaUnitName ∨ u.enable.getD true = true)) := by
  have hce : ∀ e ∈ (applyUnitContent env u).events,
      e ≠ Event.enable u.name ∧ e ≠ Event.disable u.name := by
    intro e he
    have := applyUnitContent_kinds env u e he
    constructor <;> rintro rfl <;> simp [Event.kind] at this
  have hde : ∀ e ∈ (applyUnitDropIns env u).events,
      e ≠ Event.enable u.name ∧ e ≠ Event.disable u.name := by
    intro e he
    have := applyUnitDropIns_kinds env u e he
    constructor <;> rintro rfl <;> simp [Event.kind] at this
  unfold applyChangedUnit at h ⊢
  simp only [Step.res_bind] at h
  rcases h1 : (applyUnitContent env u).res with f1 | a1 <;> rw [h1] at h
  · simp at h
  · rcases h2 : (applyUnitDropIns env u).res with f2 | a2 <;> rw [h2] at h
    · simp at h
    · simp only [Step.mem_events_bind]
      unfold applyUnitEnableOrDisable at h ⊢
      by_cases hcond : (u.name = gnaUnitName ∨ u.enable.getD true = true)
      · rw [if_pos (by tauto)] at h ⊢
        have hev : (emitOp env (Event.enable u.name)).events = [Event.enable u.name] := by
          apply emitOp_ok_events
          simpa using h
        constructor
        · constructor
          · intro _; exact hcond
          · intro _
            refine Or.inr ⟨a1, h1, Or.inr ⟨a2, h2, ?_⟩⟩
            rw [hev]; simp
        · constructor
          · rintro (hm | ⟨a, -, hm | ⟨b, -, hm⟩⟩)
            · exact absurd rfl (hce _ hm).2
            · exact absurd rfl (hde _ hm).2
            · rw [hev] at hm
              simp at hm
          · intro hn; exact absurd hcond hn
      · rw [if_neg (by tauto)] at h ⊢
        have hev : (emitOp env (Event.disable u.name)).events = [Event.disable u.name] := by
          apply emitOp_ok_events
          simpa using h
        constructor
        · constructor
          · rintro (hm | ⟨a, -, hm | ⟨b, -, hm⟩⟩)
            · exact absurd rfl (hce _ hm).1
            · exact absurd rfl (hde _ hm).1
            · rw [hev] at hm
              simp at hm
          · intro hc; exact absurd hc hcond
        · constructor
          · intro _; exact hcond
          · intro _
            refine Or.inr ⟨a1, h1, Or.inr ⟨a2, h2, ?_⟩⟩
            rw [hev]; simp

theorem C6_enable_iff_witness :
    (Event.enable u2spec.name ∈ (applyChangedUnit envBase u2spec).events ↔
      (u2spec.name = gnaUnitName ∨ u2spec.enable.getD true = true)) ∧
    (Event.disable u2spec.name ∈ (applyChangedUnit envBase u2spec).events ↔
      ¬(u2spec.name = gnaUnitName ∨ u2spec.enable.getD true = true)) :=
  C6_enable_iff envBase u2spec (by rfl)

/-- Membership of a changed unit's command in the fan-out command list. -/
theorem fanoutBase_subset_fanoutCommands {ch : Changes} {c : UnitCommand}
    (h : c ∈ fanoutBase ch) : c ∈ fanoutCommands ch := by
  unfold fanoutCommands
  split
  · exact List.mem_append_left _ h
  · exact h

/-- C7: For every changed unit in the unit-command fan-out (every changed unit
other than the node-agent's own), if its `Enable` flag is false or its
`Command` is `stop`, it receives a stop command, otherwise a restart command;
in particular `Enable=false` yields a stop even when only a dependent file
changed. -/
theorem C7_fanout_stop_or_restart (ch : Changes) (u : ChangedUnit)
    (hu : u ∈ ch.units.changed) (hne : ¬(u.name = gnaUnitName)) :
    ((u.enable.getD true = false ∨ u.command = some commandStop) →
      UnitCommand.stopU u.name ∈ fanoutCommands ch) ∧
    (¬(u.enable.getD true = false ∨ u.command = some commandStop) →
      UnitCommand.restartU u.name ∈ fanoutCommands ch) := by
  have hbase : unitCommandFor u ∈ fanoutBase ch := by
    unfold fanoutBase
    exact List.mem_filterMap.mpr ⟨u, hu, by rw [if_neg hne]⟩
  constructor
  · intro hcond
    have : unitCommandFor u = UnitCommand.stopU u.name := by
      unfold unitCommandFor
      rw [if_pos]
      rcases hcond with hc | hc
      · exact Or.inl (by simp [hc])
      · exact Or.inr hc
    exact fanoutBase_subset_fanoutCommands (this ▸ hbase)
  · intro hcond
    have : unitCommandFor u = UnitCommand.restartU u.name := by
      unfold unitCommandFor
      rw [if_neg]
      intro hc
      rcases hc with hc | hc
      · exact hcond (Or.inl (by simpa using hc))
      · exact hcond (Or.inr hc)
    exact fanoutBase_subset_fanoutCommands (this ▸ hbase)

theorem C7_fanout_stop_or_restart_witness :
    UnitCommand.stopU u2spec.name ∈ fanoutCommands u2Changes :=
  (C7_fanout_stop_or_restart u2Changes u2spec (by decide) (by decide)).1
    (Or.inl (by decide))

theorem removeDeletedFiles_ok (env : Env) (files : List FileSpec)
    (h : ∀ f ∈ files, env.ops (Event.remove f.path) ≠ OpRes.err) :
    (removeDeletedFiles env files).res = Except.ok () := by
  induction files with
  | nil => rfl
  | cons f rest ih =>
      unfold removeDeletedFiles
      rw [Step.res_bind]
      have hok : (emitRemoveTolerant env (Event.remove f.path)).res = Except.ok () := by
        unfold emitRemoveTolerant
        cases hop : env.ops (Event.remove f.path)
        · rfl
        · rfl
        · exact absurd hop (h f (by simp))
      simp only [hok]
      exact ih (fun f' h' => h f' (by simp [h']))

/-- C9: Deletion is idempotent.  (1) Removing deleted files succeeds whenever
no removal returns a genuine error — an already-absent file (not-found) is not
an error.  (2) For a deleted unit whose unit file does not exist, no disable,
stop, or unit-file removal is performed, and the step still succeeds when the
drop-in directory removal does not genuinely fail.  (3) For a deleted unit
whose unit file exists, the trace is exactly disable, stop, remove unit file,
remove drop-in directory, in that order. -/
theorem C9_idempotent_deletion :
    (∀ (env : Env) (files : List FileSpec),
      (∀ f ∈ files, env.ops (Event.remove f.path) ≠ OpRes.err) →
      (removeDeletedFiles env files).res = Except.ok ()) ∧
    (∀ (env : Env) (u : UnitSpec),
      env.existsFile (unitFilePathOf u.name) = Res.ok false →
      Event.disable u.name ∉ (removeDeletedUnit env u).events ∧
      Event.stopUnit u.name ∉ (removeDeletedUnit env u).events ∧
      Event.remove (unitFilePathOf u.name) ∉ (removeDeletedUnit env u).events ∧
      (env.ops (Event.removeAll (unitFilePathOf u.name ++ ".d")) ≠ OpRes.err →
        (removeDeletedUnit env u).res = Except.ok ())) ∧
    (∀ (env : Env) (u : UnitSpec),
      env.existsFile (unitFilePathOf u.name) = Res.ok true →
      env.ops (Event.disable u.name) = OpRes.ok →
      env.ops (Event.stopUnit u.name) = OpRes.ok →
      env.ops (Event.remove (unitFilePathOf u.name)) = OpRes.ok →
      env.ops (Event.removeAll (unitFilePathOf u.name ++ ".d")) = OpRes.ok →
      (removeDeletedUnit env u).events =
        [Event.disable u.name, Event.stopUnit u.name,
          Event.remove (unitFilePathOf u.name),
          Event.removeAll (unitFilePathOf u.name ++ ".d")] ∧
      (removeDeletedUnit env u).res = Except.ok ()) := by
  refine ⟨removeDeletedFiles_ok, ?_, ?_⟩
  · intro env u hex
    unfold removeDeletedUnit
    rw [hex]
    refine ⟨?_, ?_, ?_, ?_⟩
    · intro hm
      simp only [Step.mem_events_bind] at hm
      rcases hm with hm | ⟨a, -, hm⟩
      · simp at hm
      · exact absurd (emitRemoveTolerant_mem hm) (by simp)
    · intro hm
      simp only [Step.mem_events_bind] at hm
      rcases hm with hm | ⟨a, -, hm⟩
      · simp at hm
      · exact absurd (emitRemoveTolerant_mem hm) (by simp)
    · intro hm
      simp only [Step.mem_events_bind] at hm
      rcases hm with hm | ⟨a, -, hm⟩
      · simp at hm
      · exact absurd (emitRemoveTolerant_mem hm) (by simp)
    · intro hop
      rw [Step.res_bind]
      have hok : (emitRemoveTolerant env
          (Event.removeAll (unitFilePathOf u.name ++ ".d"))).res = Except.ok () := by
        unfold emitRemoveTolerant
        cases hop2 : env.ops (Event.removeAll (unitFilePathOf u.name ++ ".d"))
        · rfl
        · rfl
        · exact absurd hop2 hop
      simp [hok]
  · intro env u hex h1 h2 h3 h4
    unfold removeDeletedUnit
    rw [hex]
    constructor
    · simp [Step.events_bind, emitOp, emitRemoveTolerant, h1, h2, h3, h4]
    · simp [Step.res_bind, emitOp, emitRemoveTolerant, h1, h2, h3, h4]

/-- C4: The node-agent's own unit never receives a stop or restart command in
the parallel unit-command fan-out; a change to it instead sets the
"must restart myself" flag; and the process context is cancelled at most once
per pass, as the very last event, immediately after the baseline has been
persisted to disk. -/
theorem C4_self_unit_special_case :
    (∀ (ch : Changes), ∀ c ∈ fanoutCommands ch, ¬(c.target = gnaUnitName)) ∧
    (∀ (env : Env) (ch : Changes) (b : Bool),
      (executeUnitCommands env ch).res = Except.ok b →
      (b = true ↔ ∃ u ∈ ch.units.changed, u.name = gnaUnitName)) ∧
    (∀ (env : Env) (l₁ l₂ : List Event),
      (reconcile env).1 = l₁ ++ Event.cancelContext :: l₂ →
      Event.write lastAppliedOSCPath ∈ l₁ ∧ Event.cancelContext ∉ l₁ ∧ l₂ = []) := by
  refine ⟨?_, ?_, ?_⟩
  · have hbase : ∀ (ch : Changes), ∀ c ∈ fanoutBase ch, ¬(c.target = gnaUnitName) := by
      intro ch c hc
      unfold fanoutBase at hc
      rcases List.mem_filterMap.mp hc with ⟨u, hu, hf⟩
      by_cases hn : u.name = gnaUnitName
      · rw [if_pos hn] at hf
        simp at hf
      · rw [if_neg hn] at hf
        simp only [Option.some.injEq] at hf
        subst hf
        unfold unitCommandFor
        split
        · simpa [UnitCommand.target] using hn
        · simpa [UnitCommand.target] using hn
    intro ch c hc
    unfold fanoutCommands at hc
    split at hc
    · rcases List.mem_append.mp hc with hc | hc
      · exact hbase ch c hc
      · simp at hc
        subst hc
        simp [UnitCommand.target, containerdUnitName, gnaUnitName]
    · exact hbase ch c hc
  · intro env ch b h
    rw [executeUnitCommands_res h]
    unfold mustRestartGNA
    simp [List.any_eq_true]
  · intro env l₁ l₂ heq
    rcases reconcile_trace_cases env with h | ⟨node, osc, cs, vs, ch, -, -, -, -, -, -, hmain⟩
    · rw [h] at heq
      exact absurd heq (by simp)
    · rw [hmain, runPass_events] at heq
      have hcancel : Event.cancelContext ∈ (mainPass env node osc cs vs ch).events := by
        rw [heq]
        simp
      rcases mainPass_cancel hcancel with ⟨Q, hQ, hnotQ, -⟩
      rw [hQ] at heq
      obtain ⟨hl₁, hl₂⟩ := single_tail_decomp (by simp) hnotQ heq
      subst hl₁
      refine ⟨by simp, ?_, hl₂⟩
      intro hm
      rcases List.mem_append.mp hm with hm | hm
      · exact hnotQ hm
      · simp at hm

theorem C4_self_unit_special_case_witness :
    (true = true ↔ ∃ u ∈ gnaChanges.units.changed, u.name = gnaUnitName) ∧
    (Event.write lastAppliedOSCPath ∈ envC4TraceHead ∧
      Event.cancelContext ∉ envC4TraceHead ∧ ([] : List Event) = []) :=
  ⟨C4_self_unit_special_case.2.1 envC4 gnaChanges true rfl,
    C4_self_unit_special_case.2.2 envC4 envC4TraceHead [] (by decide)⟩

/-- C5 as stated is false: in a pass with a deleted unit whose unit file
exists, that unit is stopped (and disabled) before the daemon-reload, so the
daemon-reload is not "before any unit stop action of the pass". -/
theorem C5_counterexample :
    Event.stopUnit "old.service" ∈ (reconcile envC5).1 ∧
    Event.daemonReload ∈ (reconcile envC5).1 ∧
    (reconcile envC5).1.indexOf (Event.stopUnit "old.service") <
      (reconcile envC5).1.indexOf Event.daemonReload := by
  decide

/-- C5 (amended): in every pass that issues a daemon-reload, the reload is
issued exactly once; all unit restarts and starts of the pass happen after it;
every stop issued before it addresses a deleted unit (deleted units are
disabled/stopped before the reload — contrary to the original claim); and the
only file writes after it are the kubelet-rebootstrap files and the baseline
(so all applier-phase file and unit-file writes precede it). -/
theorem C5_daemon_reload_ordering (env : Env) (ch : Changes)
    (hch : env.computeChanges = Res.ok ch)
    (hreload : Event.daemonReload ∈ (reconcile env).1) :
    ∃ A B, (reconcile env).1 = A ++ Event.daemonReload :: B ∧
      Event.daemonReload ∉ A ∧ Event.daemonReload ∉ B ∧
      (∀ u, Event.restartUnit u ∉ A) ∧ (∀ u, Event.startUnit u ∉ A) ∧
      (∀ u, Event.stopUnit u ∈ A → u ∈ ch.units.deleted.map UnitSpec.name) ∧
      (∀ p, Event.write p ∈ B → p = kubeletTempCertPath ∨
        p = pathKubeconfigBootstrap ∨ p = lastAppliedOSCPath) := by
  rcases reconcile_trace_cases env with h | ⟨node, osc, cs, vs, ch', -, -, -, -, hch', -, hmain⟩
  · rw [h] at hreload
    simp at hreload
  · rw [hch] at hch'
    have hcc : ch' = ch := by
      cases hch'
      rfl
    subst hcc
    rw [hmain, runPass_events] at hreload ⊢
    exact mainPass_reload_decomp hreload

theorem C5_daemon_reload_ordering_witness :
    ∃ A B, (reconcile envC5).1 = A ++ Event.daemonReload :: B ∧
      Event.daemonReload ∉ A ∧ Event.daemonReload ∉ B ∧
      (∀ u, Event.restartUnit u ∉ A) ∧ (∀ u, Event.startUnit u ∉ A) ∧
      (∀ u, Event.stopUnit u ∈ A →
        u ∈ deletedUnitChanges.units.deleted.map UnitSpec.name) ∧
      (∀ p, Event.write p ∈ B → p = kubeletTempCertPath ∨
        p = pathKubeconfigBootstrap ∨ p = lastAppliedOSCPath) :=
  C5_daemon_reload_ordering envC5 deletedUnitChanges rfl (by decide)

/-- C1 as stated is false: a step that fails after baseline persistence (here
the removal of the kubelet bootstrap kubeconfig) aborts the pass with an
error while the baseline file has already been written. -/
theorem C1_counterexample :
    (reconcile envC1).2 = Outcome.err ∧
    Event.write lastAppliedOSCPath ∈ (reconcile envC1).1 := by
  constructor
  · rfl
  · decide

/-- C1 (amended): the checksum annotation is set only when the entire pass
succeeds, and then the baseline was written; the baseline is written only
after every apply stage, the daemon-reload, and the registry wait succeeded.
A failure in a step after baseline persistence still aborts the pass with an
error, but leaves the freshly written baseline in place (hence the
counterexample to the original wording).  The hypothesis excludes the
degenerate change-set that itself writes to the baseline path. -/
theorem C1_baseline_and_checksum_gating (env : Env) (ch : Changes)
    (hch : env.computeChanges = Res.ok ch)
    (hnb : Event.write lastAppliedOSCPath ∉ (applyPhase env ch).events) :
    (∀ c, Event.patchNodeChecksum c ∈ (reconcile env).1 →
      (reconcile env).2 = Outcome.ok (some env.syncPeriod) ∧
      Event.write lastAppliedOSCPath ∈ (reconcile env).1) ∧
    (Event.write lastAppliedOSCPath ∈ (reconcile env).1 →
      (∀ s, Event.stage s ∈ (reconcile env).1) ∧
      Event.daemonReload ∈ (reconcile env).1 ∧
      Event.waitForRegistries ∈ (reconcile env).1) := by
  rcases reconcile_trace_cases env with h | ⟨node, osc, cs, vs, ch', -, -, -, -, hch', -, hmain⟩
  · rw [h]
    exact ⟨fun c hc => absurd hc (by simp), fun hc => absurd hc (by simp)⟩
  · rw [hch] at hch'
    have hcc : ch' = ch := by
      cases hch'
      rfl
    subst hcc
    constructor
    · intro c hc
      rw [hmain, runPass_events] at hc
      obtain ⟨hres, hw⟩ := mainPass_patch hc
      refine ⟨?_, ?_⟩
      · rw [hmain]
        exact runPass_outcome_ok hres
      · rw [hmain, runPass_events]
        exact hw
    · intro hw
      rw [hmain, runPass_events] at hw ⊢
      exact mainPass_write_baseline hnb hw

theorem C1_baseline_and_checksum_gating_witness :
    (reconcile envC5).2 = Outcome.ok (some envC5.syncPeriod) ∧
      Event.write lastAppliedOSCPath ∈ (reconcile envC5).1 :=
  (C1_baseline_and_checksum_gating envC5 deletedUnitChanges rfl (by decide)).1
    "abc" (by decide)

theorem C9_idempotent_deletion_witness :
    (removeDeletedFiles envBase [⟨"/a", none, none, none⟩]).res = Except.ok () ∧
    (Event.stopUnit goneUnit.name ∉ (removeDeletedUnit envC9gone goneUnit).events) ∧
    (removeDeletedUnit envBase oldUnit).events =
      [Event.disable oldUnit.name, Event.stopUnit oldUnit.name,
        Event.remove (unitFilePathOf oldUnit.name),
        Event.removeAll (unitFilePathOf oldUnit.name ++ ".d")] :=
  ⟨C9_idempotent_deletion.1 envBase [⟨"/a", none, none, none⟩] (by decide),
    (C9_idempotent_deletion.2.1 envC9gone goneUnit (by decide)).2.1,
    (C9_idempotent_deletion.2.2 envBase oldUnit rfl rfl rfl rfl rfl).1⟩

end OSCReconcile
